import Mathlib

/-!
Verification development for the rirc-server IRC server.

We shallowly embed the parts of the source relevant to the checked claims:
the message codec (`src/message/message.rs`), the reply factory
(`src/message/reply_codes.rs`), the mode engine (`src/mode.rs`), the
registration / teardown state changes (`src/client.rs`, `src/commands/misc.rs`),
and the decision logic of the JOIN, MODE and WHOIS handlers
(`src/commands/channels.rs`, `src/commands/userqueries.rs`,
`src/commands/identity.rs`).

Rust `String`/`&str` values are embedded as `List Char` (`Str`); byte counts
(Rust `str::len`) are computed through the UTF-8 width of each scalar value.
-/

/-- Rust strings are embedded as lists of unicode scalar values. -/
abbrev Str := List Char

/-- Conversion from a Lean string literal to the embedding. -/
def str (s : String) : Str := s.data

/-- UTF-8 encoded width in bytes of one scalar value, as used by Rust `str::len`. -/
def charUtf8Len (c : Char) : Nat :=
  if c.val < 0x80 then 1
  else if c.val < 0x800 then 2
  else if c.val < 0x10000 then 3
  else 4

/-- Byte length of an embedded string (Rust `str::len`). -/
def byteLen : Str → Nat
  | [] => 0
  | c :: rest => charUtf8Len c + byteLen rest

/-- The set of characters with the unicode White_Space property, which is what
Rust `char::is_whitespace` (and hence `str::trim_left`) tests. -/
def rustIsWhitespace (c : Char) : Bool :=
  c.val = 0x09 ∨ c.val = 0x0A ∨ c.val = 0x0B ∨ c.val = 0x0C ∨ c.val = 0x0D ∨
  c.val = 0x20 ∨ c.val = 0x85 ∨ c.val = 0xA0 ∨ c.val = 0x1680 ∨
  (0x2000 ≤ c.val ∧ c.val ≤ 0x200A) ∨ c.val = 0x2028 ∨ c.val = 0x2029 ∨
  c.val = 0x202F ∨ c.val = 0x205F ∨ c.val = 0x3000

/-- Rust `str::trim_left` (a.k.a. `trim_start`). -/
def trimLeft (l : Str) : Str := l.dropWhile rustIsWhitespace

/-- Splitting on a single character, Rust `str::split(c)`: always returns
one piece more than the number of occurrences of `c`, so it is never empty. -/
def splitChar (c : Char) : Str → List Str
  | [] => [[]]
  | a :: rest =>
    let pieces := splitChar c rest
    if a = c then [] :: pieces
    else (a :: pieces.headD []) :: pieces.tail

/-- Joining pieces with a one-character separator, inverse of `splitChar`. -/
def joinSep (c : Char) : List Str → Str
  | [] => []
  | [p] => p
  | p :: rest => p ++ c :: joinSep c rest

/-- ASCII uppercasing of one character, Rust `u8::to_ascii_uppercase`. -/
def asciiUpper (c : Char) : Char :=
  if 'a' ≤ c ∧ c ≤ 'z' then Char.ofNat (c.toNat - 32) else c

/-- Rust `str::to_ascii_uppercase`. -/
def upperStr (s : Str) : Str := s.map asciiUpper

/-- A message tag, from `src/message/message.rs` (`struct MessageTag`). -/
structure MessageTag where
  name : Str
  value : Option Str
deriving DecidableEq, Repr

/-- `MessageTag::to_string`. -/
def tagToStr (t : MessageTag) : Str :=
  match t.value with
  | some v => t.name ++ '=' :: v
  | none => t.name

/-- One IRC message, from `src/message/message.rs` (`struct Message`). -/
structure Message where
  tags : List MessageTag
  source : Option Str
  command : Str
  params : List Str
deriving DecidableEq, Repr

/-- `MAX_LENGTH` from `src/message/message.rs`. -/
def MAX_LENGTH : Nat := 512

/-- Whether `Message::to_line` must render a final parameter in the
`:`-prefixed trailing form. -/
def needsColon (p : Str) : Bool := p.contains ' ' ∨ p.contains ':' ∨ p = []

/-- Rendering of the parameter list by `Message::to_line`: every parameter is
space-prefixed, and the final one gets a `:` marker when required. -/
def renderParams : List Str → Str
  | [] => []
  | [p] => (if needsColon p then [' ', ':'] else [' ']) ++ p
  | p :: rest => ' ' :: (p ++ renderParams rest)

/-- `Message::to_line`: serialise a message, terminated by CR LF.  When the
command is empty the parameters are ignored and the last separator space (if
any) is popped, exactly as in the source. -/
def Message.toLine (m : Message) : Str :=
  let tagsPart : Str :=
    if m.tags = [] then []
    else '@' :: joinSep ';' (m.tags.map tagToStr) ++ [' ']
  let srcPart : Str :=
    match m.source with
    | some s => ':' :: s ++ [' ']
    | none => []
  let line := tagsPart ++ srcPart
  (if m.command = [] then line.dropLast
   else line ++ m.command ++ renderParams m.params) ++ ['\r', '\n']

/-- Strip the line terminator: `Message::consume_tags` asserts the line ends
with `\n` (we model the assert as `none`) and drops a final `\r\n` or `\n`. -/
def stripLineEnding (l : Str) : Option Str :=
  if l.getLast? = some '\n' then
    let l' := l.dropLast
    if l'.getLast? = some '\r' then some l'.dropLast else some l'
  else none

/-- Parse one `name` or `name=value` tag token (split at the first `=`). -/
def parseTagToken (tok : Str) : MessageTag :=
  if tok.contains '=' then
    { name := tok.takeWhile (· ≠ '='), value := some ((tok.dropWhile (· ≠ '=')).tail) }
  else
    { name := tok, value := none }

/-- `Message::consume_tags` (after the terminator has been stripped). -/
def consumeTags (l : Str) : List MessageTag × Str :=
  let l := trimLeft l
  if l.head? = some '@' then
    ((splitChar ';' (l.tail.takeWhile (· ≠ ' '))).map parseTagToken,
     l.dropWhile (· ≠ ' '))
  else ([], l)

/-- `Message::consume_source`. -/
def consumeSource (l : Str) : Option Str × Str :=
  let l := trimLeft l
  if l.head? = some ':' then
    (some (l.tail.takeWhile (· ≠ ' ')), l.dropWhile (· ≠ ' '))
  else (none, l)

/-- The parameter loop of `Message::parse_command_params`: a word starting
with `:` swallows the rest of the words (re-joined with single spaces, which
restores the original text verbatim), empty words are discarded. -/
def parseParams : List Str → List Str
  | [] => []
  | w :: ws =>
    if w.head? = some ':' then [ws.foldl (fun s v => s ++ ' ' :: v) w.tail]
    else if w = [] then parseParams ws
    else w :: parseParams ws

/-- `Message::parse_command_params`. -/
def parseCommandParams (l : Str) : Str × List Str :=
  let words := splitChar ' ' (trimLeft l)
  (words.headD [], parseParams words.tail)

/-- `Message::new`: parse one line (the source asserts a `\n` terminator,
which we model by returning `none`). -/
def Message.new (msgLine : Str) : Option Message :=
  (stripLineEnding msgLine).map fun l₀ =>
    let (tags, l₁) := consumeTags l₀
    let (source, l₂) := consumeSource l₁
    let (command, params) := parseCommandParams l₂
    { tags, source, command, params }

/-- Append one parameter to a message (`next_msg.params.push(..)`). -/
def pushParam (m : Message) (p : Str) : Message :=
  { m with params := m.params ++ [p] }

/-- The accumulation loop of `Message::split_trailing_args`: `t` is
`next_trailing`; a message is flushed before adding an item when the trailing
is non-empty and would reach `maxParamLen`; the separator is appended
whenever another item is still pending (`params.peek().is_some()`). -/
def splitAux (base : Message) (maxParamLen : Nat) (sep : Str) :
    List Str → Str → List Message
  | [], t => if t = [] then [] else [pushParam base t]
  | p :: ps, t =>
    if t ≠ [] ∧ maxParamLen ≤ byteLen t + (byteLen p + byteLen sep) then
      pushParam base t ::
        splitAux base maxParamLen sep ps (p ++ (if ps = [] then [] else sep))
    else
      splitAux base maxParamLen sep ps (t ++ p ++ (if ps = [] then [] else sep))

/-- `Message::split_trailing_args`. -/
def Message.splitTrailingArgs (base : Message) (items : List Str) (sep : Str) :
    List Message :=
  splitAux base (MAX_LENGTH - byteLen base.toLine) sep items []

/-- The trailing parameter added by `splitAux` to each emitted message. -/
def trailingOf (m : Message) : Str := (m.params.getLast?).getD []

/-- Join items with a separator string (Rust `Vec::join`-style). -/
def joinSepAll (sep : Str) : List Str → Str
  | [] => []
  | [p] => p
  | p :: rest => p ++ sep ++ joinSepAll sep rest

example : Message.new (str "foo bar baz\r\n") =
    some { tags := [], source := none, command := str "foo",
           params := [str "bar", str "baz"] } := by decide

example : Message.new (str ":foo bar :baz asdf\n") =
    some { tags := [], source := some (str "foo"), command := str "bar",
           params := [str "baz asdf"] } := by decide

example : Message.new (str "@foo=bar;baz=;qux bar baz\n") =
    some { tags := [⟨str "foo", some (str "bar")⟩, ⟨str "baz", some []⟩,
                    ⟨str "qux", none⟩],
           source := none, command := str "bar", params := [str "baz"] } := by
  decide

example : (Message.new (str "foo   bar     baz   :asdf  \n")).map Message.params =
    some [str "bar", str "baz", str "asdf  "] := by decide

example : Message.toLine ⟨[], some (str "foo"), str "bar",
    [str "baz", str "  asdf"]⟩ = str ":foo bar baz :  asdf\r\n" := by decide

example : Message.toLine ⟨[], some (str "bar"), [], []⟩ = str ":bar\r\n" := by
  decide

/-! ## Mode engine (`src/mode.rs`)

`BaseMode` is a trait whose implementors expose one mutable boolean per mode
letter through `get_mode_bool`.  We embed an implementor as an association
list from the mode letter's byte value to the current boolean; `UserMode` and
`ChannelMode` are particular tables. -/

/-- A `BaseMode` implementor: mode letter byte to boolean flag. -/
abbrev ModeTable := List (Nat × Bool)

/-- `get_mode_bool`: look the letter up. -/
def getModeBool (t : ModeTable) (mode : Nat) : Option Bool :=
  (t.find? (fun p => p.1 = mode)).map (·.2)

/-- Writing through the `&mut bool` returned by `get_mode_bool`. -/
def setModeBool (t : ModeTable) (mode : Nat) (b : Bool) : ModeTable :=
  t.map (fun p => if p.1 = mode then (p.1, b) else p)

/-- The full state threaded by `BaseMode::apply_modestring`. -/
structure ModeApplyState where
  table : ModeTable
  applied : Str
  lastPositiveApplied : Bool
  positive : Bool
  hadUnknown : Bool
  unknownMode : Char
deriving DecidableEq, Repr

/-- `BaseMode::append_mode`. -/
def appendMode (modestring : Str) (mode : Nat) (positiveChanged positive : Bool) : Str :=
  (if positiveChanged ∧ positive then modestring ++ ['+']
   else if positiveChanged ∧ ¬positive then modestring ++ ['-']
   else modestring) ++ [Char.ofNat mode]

/-- `BaseMode::apply_mode`, updating the threaded state (a `none` lookup
reports an unknown mode to the caller). -/
def applyModeStep (s : ModeApplyState) (mode : Nat) : ModeApplyState :=
  match getModeBool s.table mode with
  | none => { s with hadUnknown := true, unknownMode := Char.ofNat mode }
  | some target =>
    if target ≠ s.positive then
      let positiveChanged : Bool := s.applied = [] ∨ s.positive ≠ s.lastPositiveApplied
      { s with table := setModeBool s.table mode s.positive,
               applied := appendMode s.applied mode positiveChanged s.positive,
               lastPositiveApplied := s.positive }
    else s

/-- The byte loop of `BaseMode::apply_modestring` (`+`/`-` toggle the sign,
anything else is applied as a mode letter). -/
def modeLoop (s : ModeApplyState) : List Nat → ModeApplyState
  | [] => s
  | c :: cs =>
    if c = 43 then modeLoop { s with positive := true } cs
    else if c = 45 then modeLoop { s with positive := false } cs
    else modeLoop (applyModeStep s c) cs

/-- `BaseMode::apply_modestring` (the empty-modestring early return produces
the same state as running the loop on no bytes). -/
def applyModestring (t : ModeTable) (modestring : List Nat) : ModeApplyState :=
  modeLoop { table := t, applied := [], lastPositiveApplied := true,
             positive := true, hadUnknown := false, unknownMode := '\x00' }
    modestring

/-- `UserMode` from `src/mode.rs`. -/
structure UserMode where
  invisible : Bool
  seeWallops : Bool
  isBot : Bool
deriving DecidableEq, Repr

/-- `impl Default for UserMode`. -/
def defaultUserMode : UserMode :=
  { invisible := true, seeWallops := false, isBot := false }

/-- `impl BaseMode for UserMode`: the `get_mode_bool` table (`i`, `w`, `B`). -/
def userModeTable (m : UserMode) : ModeTable :=
  [(105, m.invisible), (119, m.seeWallops), (66, m.isBot)]

/-- `impl ToString for UserMode`. -/
def userModeToStr (m : UserMode) : Str :=
  ['+'] ++ (if m.invisible then ['i'] else [])
       ++ (if m.seeWallops then ['w'] else [])
       ++ (if m.isBot then ['B'] else [])

/-- `ChannelMode` from `src/mode.rs`. -/
structure ChannelMode where
  noExternalMsgs : Bool
deriving DecidableEq, Repr

/-- `impl BaseMode for ChannelMode`: the `get_mode_bool` table (`n`). -/
def channelModeTable (m : ChannelMode) : ModeTable :=
  [(110, m.noExternalMsgs)]

/-! ## Reply factory (`src/message/reply_codes.rs`) -/

/-- `ReplyCode` from `src/message/reply_codes.rs`.  `DateTime` arguments are
embedded by what the factory consumes of them (the rendered text for
`RplCreated`, the unix timestamp for `RplTopicWhoTime`). -/
inductive ReplyCode where
  | rplWelcome
  | rplYourHost
  | rplCreated
  | rplMyInfo
  | rplIsSupport (features : List Str)
  | rplLuserClient (numVisibles numInvisibles : Nat)
  | rplLuserOp (numOps : Nat)
  | rplLuserUnknown (numUnknowns : Nat)
  | rplLuserChannels (numChannels : Nat)
  | rplLuserMe (numUsers : Nat)
  | rplLocalUsers (numUsers maxUsersSeen : Nat)
  | rplGlobalUsers (numUsers maxUsersSeen : Nat)
  | rplEndOfWho (mask : Str)
  | rplNoTopic (channel : Str)
  | rplTopic (channel text : Str)
  | rplTopicWhoTime (channel who : Str) (time : Nat)
  | rplVersion (comments : Str)
  | rplWhoReply (channel user host server nick : Str) (status : Char)
      (hopcount : Nat) (realname : Str)
  | rplNameReply (symbol : Char) (channel : Str)
  | rplEndOfNames (channel : Str)
  | errNoSuchNick (nick : Str)
  | errNoSuchServer (server : Str)
  | errNoSuchChannel (channel : Str)
  | errCannotSendToChan (channel reason : Str)
  | errTooManyChannels (channel : Str)
  | errNoRecipient (cmd : Str)
  | errNoTextToSend
  | errUnknownCommand (cmd : Str)
  | errNoMotd
  | errNoNicknameGiven
  | errErroneusNickname (nick : Str)
  | errNicknameInUse (nick : Str)
  | errNotOnChannel (channel : Str)
  | errNeedMoreParams (cmd : Str)
  | errAlreadyRegistered
deriving DecidableEq, Repr

/-- Decimal rendering (`usize::to_string` / `Display`). -/
def natToStr (n : Nat) : Str := (Nat.repr n).data

/-- The fields of `ServerState`/`ServerSettings` that the reply factory and
the registration sequence read.  `versionStr` stands for the compile-time
`CARGO_PKG_VERSION` constant and `creationTimeStr` for the rendered
`state.creation_time`. -/
structure StateModel where
  serverName : Str
  networkName : Str
  versionStr : Str
  creationTimeStr : Str
  chanLimit : Nat
  maxChannelLength : Nat
  maxNameLength : Nat
  maxTopicLength : Nat
deriving DecidableEq, Repr

/-- The `(cmd_num, params, description)` triple computed by `make_reply_msg`. -/
def replyTriple (st : StateModel) (clientNick : Str) :
    ReplyCode → Str × List Str × Option Str
  | .rplWelcome => (str "001", [],
      some (str "Welcome to the " ++ st.networkName ++
            str " Internet Relay Chat Network " ++ clientNick))
  | .rplYourHost => (str "002", [],
      some (str "Your host is " ++ st.serverName ++ str ", running version " ++
            st.versionStr))
  | .rplCreated => (str "003", [],
      some (str "This server was created " ++ st.creationTimeStr))
  | .rplMyInfo => (str "004", [st.serverName, st.versionStr], none)
  | .rplIsSupport features => (str "005", features,
      some (str "are supported by this server"))
  | .rplLuserClient v i => (str "251", [],
      some (str "There are " ++ natToStr v ++ str " users and " ++ natToStr i ++
            str " invisible on 1 servers"))
  | .rplLuserOp n => (str "252", [natToStr n], some (str "operator(s) online"))
  | .rplLuserUnknown n => (str "253", [natToStr n],
      some (str "unknown connection(s)"))
  | .rplLuserChannels n => (str "254", [natToStr n], some (str "channels formed"))
  | .rplLuserMe n => (str "255", [],
      some (str "I have " ++ natToStr n ++ str " clients and 1 servers"))
  | .rplLocalUsers n m => (str "265", [natToStr n, natToStr m],
      some (str "Current local users " ++ natToStr n ++ str ", max " ++ natToStr m))
  | .rplGlobalUsers n m => (str "266", [natToStr n, natToStr m],
      some (str "Current global users " ++ natToStr n ++ str ", max " ++ natToStr m))
  | .rplEndOfWho mask => (str "315", [mask], some (str "End of WHO list"))
  | .rplNoTopic channel => (str "331", [channel], some (str "No topic is set"))
  | .rplTopic channel text => (str "332", [channel], some text)
  | .rplTopicWhoTime channel who time => (str "333", [channel, who, natToStr time], none)
  | .rplVersion comments => (str "351", [st.versionStr, st.serverName], some comments)
  | .rplWhoReply channel user host server nick status hopcount realname =>
      (str "352", [channel, user, host, server, nick, [status]],
       some (natToStr hopcount ++ str " " ++ realname))
  | .rplNameReply symbol channel => (str "353", [[symbol], channel], none)
  | .rplEndOfNames channel => (str "366", [channel], some (str "End of /NAMES list"))
  | .errNoSuchNick nick => (str "401", [nick], some (str "No such nick/channel"))
  | .errNoSuchServer server => (str "402", [server], some (str "No such server"))
  | .errNoSuchChannel channel => (str "403", [channel], some (str "No such channel"))
  | .errCannotSendToChan channel reason => (str "404", [channel], some reason)
  | .errTooManyChannels channel => (str "405", [channel],
      some (str "You have joined too many channels"))
  | .errNoRecipient cmd => (str "411", [],
      some (str "No recipient given (" ++ cmd ++ str ")"))
  | .errNoTextToSend => (str "412", [], some (str "No text to send"))
  | .errUnknownCommand cmd => (str "421", [cmd], some (str "Unknown command"))
  | .errNoMotd => (str "422", [], some (str "No MOTD set."))
  | .errNoNicknameGiven => (str "431", [], some (str "No nickname given"))
  | .errErroneusNickname nick => (str "432", [nick], some (str "Erroneous nickname"))
  | .errNicknameInUse nick => (str "433", [nick],
      some (str "Nickname is already in use."))
  | .errNotOnChannel channel => (str "442", [channel],
      some (str "You're not on that channel"))
  | .errNeedMoreParams cmd => (str "461", [cmd], some (str "Not enough parameters"))
  | .errAlreadyRegistered => (str "462", [], some (str "You may not reregister"))

/-- `make_reply_msg`: insert the client nick first, append the description
last, source the message from the server. -/
def makeReplyMsg (st : StateModel) (clientNick : Str) (rc : ReplyCode) : Message :=
  let t := replyTriple st clientNick rc
  { tags := [],
    source := some st.serverName,
    command := t.1,
    params := clientNick :: t.2.1 ++ (match t.2.2 with | some d => [d] | none => []) }

/-! ## Registration and LUSERS sequences (`src/client.rs`) -/

/-- `CHANMODES` from `src/mode.rs`. -/
def CHANMODES : Str := str ",,,n"

/-- The feature list built by `Client::send_issupport`. -/
def issupportFeatures (st : StateModel) : List Str :=
  [str "CASEMAPPING=ascii",
   str "CHANLIMIT=#:" ++ natToStr st.chanLimit,
   str "CHANMODES=" ++ CHANMODES,
   str "CHANNELLEN=" ++ natToStr st.maxChannelLength,
   str "CHANTYPES=#",
   str "NETWORK=" ++ st.networkName,
   str "NICKLEN=" ++ natToStr st.maxNameLength,
   str "PREFIX",
   str "SILENCE",
   str "TOPICLEN=" ++ natToStr st.maxTopicLength]

/-- Invisible-user count of `Client::send_lusers` (`mode.invisible` of every
user in `state.users` whose weak reference upgrades; we model the live
users' modes as a list). -/
def numInvisiblesOf (userModes : List UserMode) : Nat :=
  (userModes.filter (·.invisible)).length

/-- `num_visibles = num_users - num_invisibles` in `Client::send_lusers`. -/
def numVisiblesOf (userModes : List UserMode) : Nat :=
  userModes.length - numInvisiblesOf userModes

/-- The seven messages sent by `Client::send_lusers`, computed from the modes
of the registered users, the channel count and the connection count. -/
def sendLusersMsgs (st : StateModel) (nick : Str) (userModes : List UserMode)
    (numChannels numClients : Nat) : List Message :=
  let numUsers := userModes.length
  let maxUsersSeen := numUsers
  [makeReplyMsg st nick (.rplLuserClient (numVisiblesOf userModes) (numInvisiblesOf userModes)),
   makeReplyMsg st nick (.rplLuserOp 0),
   makeReplyMsg st nick (.rplLuserUnknown (numClients - numUsers)),
   makeReplyMsg st nick (.rplLuserChannels numChannels),
   makeReplyMsg st nick (.rplLuserMe numUsers),
   makeReplyMsg st nick (.rplLocalUsers numUsers maxUsersSeen),
   makeReplyMsg st nick (.rplGlobalUsers numUsers maxUsersSeen)]

/-- The full message sequence sent by `Client::finish_registration`: the
welcome batch, then `send_issupport`, then `send_lusers`, then `send_motd`
(which unconditionally replies `ErrNoMotd`). -/
def finishRegistrationMsgs (st : StateModel) (nick : Str)
    (userModes : List UserMode) (numChannels numClients : Nat) : List Message :=
  [makeReplyMsg st nick .rplWelcome,
   makeReplyMsg st nick .rplYourHost,
   makeReplyMsg st nick .rplCreated,
   makeReplyMsg st nick .rplMyInfo,
   makeReplyMsg st nick (.rplIsSupport (issupportFeatures st))] ++
  sendLusersMsgs st nick userModes numChannels numClients ++
  [makeReplyMsg st nick .errNoMotd]

/-! ## Channel join messages (`src/channel.rs`, `src/commands/channels.rs`) -/

/-- A channel topic (`struct Topic`), with the timestamp as consumed by the
reply factory. -/
structure TopicRec where
  text : Str
  setByHost : Str
  setAtTs : Nat
deriving DecidableEq, Repr

/-- `Channel::get_names_msgs`: a 353 base message split over the member
nicks, then 366.  `memberNicks` are the nicks of the members present in the
channel's user map (in iteration order) whose weak references upgrade. -/
def getNamesMsgs (st : StateModel) (clientNick chanName : Str)
    (memberNicks : List Str) : List Message :=
  Message.splitTrailingArgs
    (makeReplyMsg st clientNick (.rplNameReply '=' chanName)) memberNicks (str " ") ++
  [makeReplyMsg st clientNick (.rplEndOfNames chanName)]

/-- `Channel::get_join_msgs`: topic replies when a topic is set, then the
names messages. -/
def getJoinMsgs (st : StateModel) (clientNick chanName : Str)
    (topic : Option TopicRec) (memberNicks : List Str) : List Message :=
  (match topic with
   | some t => [makeReplyMsg st clientNick (.rplTopic chanName t.text),
                makeReplyMsg st clientNick (.rplTopicWhoTime chanName t.setByHost t.setAtTs)]
   | none => []) ++
  getNamesMsgs st clientNick chanName memberNicks

/-- The messages `handle_join` (src/commands/channels.rs) delivers to the
joining client itself on a successful join of one channel it was not in:
`get_join_msgs` is computed from the member map *before* the client is
inserted and sent first (`client.send_all(msgs)`), and only afterwards the
client — by then a member — receives the `JOIN` echo from the member loop.
`extendedPfx` is the client's `nick!user@host` prefix and `preMemberNicks`
the nicks of the members present before the join. -/
def handleJoinSelfMsgs (st : StateModel) (nick extendedPfx chanName : Str)
    (topic : Option TopicRec) (preMemberNicks : List Str) : List Message :=
  getJoinMsgs st nick chanName topic preMemberNicks ++
  [{ tags := [], source := some extendedPfx, command := str "JOIN",
     params := [chanName] }]

/-! ## Connection teardown (`impl Drop for Client`, `handle_quit`) -/

/-- The states a dropped client can be in that matter to teardown:
`none` for `Unregistered`, `some nick` for `Normal`. -/
structure ClientRec where
  addr : Str
  nick : Option Str
deriving DecidableEq, Repr

/-- A channel as stored in `ServerState.channels`: its canonical name and the
keys of its `users` map (client addresses; the values are weak references
that upgrade only while the client is alive). -/
structure ChanRec where
  name : Str
  users : List Str
deriving DecidableEq, Repr

/-- The three registries of `ServerState`, with maps as key lists /
association lists: `clients` is `by_addr`'s key set, `users` maps the
uppercased nick to the client address, `channels` maps the uppercased
channel name to the channel. -/
structure ServerStateRec where
  clients : List Str
  users : List (Str × Str)
  channels : List (Str × ChanRec)
deriving DecidableEq, Repr

/-- `impl Drop for Client` (src/client.rs): after the QUIT broadcast (which
does not change registries), a registered client's uppercased nick is removed
from `state.users`, then the address is removed from `state.clients`.
Channel member maps and `state.channels` are not touched. -/
def clientDrop (c : ClientRec) (s : ServerStateRec) : ServerStateRec :=
  let s₁ :=
    match c.nick with
    | some n => { s with users := s.users.filter (fun kv => kv.1 ≠ upperStr n) }
    | none => s
  { s₁ with clients := s₁.clients.filter (fun a => a ≠ c.addr) }

/-! ## WHOIS routing (`handle_whois`, src/commands/userqueries.rs) -/

/-- The observable outcome of `handle_whois` for a registered client:
either an error reply, or the processing of the first nickmask — a found
user yields `RplWhoisUser`, `RplWhoisServer`, `RplEndOfWhois`; a miss yields
`ErrNoSuchNick` then `RplEndOfWhois`. -/
inductive WhoisOutcome where
  | errNeedMoreParams
  | errNoSuchServer (server : Str)
  | found (nick : Str)
  | notFound (mask : Str)
deriving DecidableEq, Repr

/-- `handle_whois`: one param is the masks; with two params the first must
equal the *second* (`msg.params[0] != msg.params[1]` yields
`ErrNoSuchServer`); any other arity is `ErrNeedMoreParams`.  Only the first
`,`-separated mask is looked up, by exact nick comparison against the
registered users (`user_matches_mask`). -/
def handleWhois (userNicks : List Str) (params : List Str) : WhoisOutcome :=
  match params with
  | [m] =>
    let mask := (splitChar ',' m).headD []
    if userNicks.contains mask then .found mask else .notFound mask
  | [srv, m] =>
    if srv ≠ m then .errNoSuchServer srv
    else
      let mask := (splitChar ',' m).headD []
      if userNicks.contains mask then .found mask else .notFound mask
  | _ => .errNeedMoreParams

/-! ## MODE routing (`handle_mode`, src/commands/channels.rs) -/

/-- Which branch `handle_mode` takes for a registered client. -/
inductive ModeRoute where
  | needMoreParams
  | channelMode (chan : Str)
  | noSuchChannel (chan : Str)
  | userMode
  | usersDontMatch
  | noSuchNick (target : Str)
deriving DecidableEq, Repr

/-- `handle_mode`: `#`-targets route to channel handling (found or
`ErrNoSuchChannel`); a target equal to the requester's nick routes to user
modes; otherwise the *verbatim* target is looked up among the keys of
`state.users` (which are uppercased nicks) — a hit is `ErrUsersDontMatch`, a
miss `ErrNoSuchNick`. -/
def handleModeRoute (byChannelKeys byNickKeys : List Str) (clientNick : Str)
    (params : List Str) : ModeRoute :=
  match params.head? with
  | none => .needMoreParams
  | some target =>
    if target.head? = some '#' then
      if byChannelKeys.contains (upperStr target) then .channelMode target
      else .noSuchChannel target
    else if target = clientNick then .userMode
    else if byNickKeys.contains target then .usersDontMatch
    else .noSuchNick target

/-! ## Username sanitisation (`make_valid_username`, src/commands/identity.rs) -/

/-- Rust `String::truncate(n)`: a no-op when `n ≥ len`; otherwise cuts at
byte index `n` when that is a character boundary and panics (`none`) when it
falls inside a multi-byte character. -/
def truncAt : Str → Nat → Option Str
  | _, 0 => some []
  | [], _ + 1 => some []
  | c :: rest, n + 1 =>
    if charUtf8Len c ≤ n + 1 then (truncAt rest (n + 1 - charUtf8Len c)).map (c :: ·)
    else none

/-- The character class of `BAD_USERNAME_CHARS_REGEX`: `[@\x00\x0D\x0A\x20]`. -/
def isBadUsernameChar (c : Char) : Bool :=
  c = '@' ∨ c.val = 0 ∨ c = '\x0D' ∨ c = '\x0A' ∨ c = ' '

/-- The second half of `make_valid_username`: cut at the first bad character
(the regex match start is always a character boundary, so this second
truncate cannot panic), reject the empty result, and prepend `~`. -/
def sanitizeUsername (u : Str) : Option Str :=
  if u.takeWhile (fun c => !isBadUsernameChar c) ≠ [] then
    some ('~' :: u.takeWhile (fun c => !isBadUsernameChar c))
  else none

/-- `make_valid_username` proper: the initial byte-index truncate to
`max_len - 1` (a panic, `none`, when the index falls inside a multi-byte
character, and an arithmetic underflow panic when `max_len = 0`), then the
sanitisation above. -/
def makeValidUsername (maxLen : Nat) (username : Str) : Option (Option Str) :=
  if maxLen = 0 then none
  else (truncAt username (maxLen - 1)).map sanitizeUsername

example : makeValidUsername 16 (str "abc") = some (some (str "~abc")) := by decide
example : makeValidUsername 16 (str "abc@def") = some (some (str "~abc")) := by decide
example : makeValidUsername 16 (str "abc def") = some (some (str "~abc")) := by decide
example : makeValidUsername 16 (str "") = some none := by decide
example : makeValidUsername 4 (str "xxxx") = some (some (str "~xxx")) := by decide

/-- `ClientDuplex::from_sink_and_stream` initialises `mode` with
`Default::default()`. -/
def newClientInitialMode : UserMode := defaultUserMode

/-! ## Helper lemmas for the mode engine -/

theorem modeLoop_append (l₁ l₂ : List Nat) (s : ModeApplyState) :
    modeLoop s (l₁ ++ l₂) = modeLoop (modeLoop s l₁) l₂ := by
  induction l₁ generalizing s with
  | nil => rfl
  | cons c cs ih =>
    simp only [List.cons_append, modeLoop]
    split
    · exact ih _
    · split
      · exact ih _
      · exact ih _

/-- The flag table and sign of the modestring loop, with the applied-string
bookkeeping (which cannot influence the flags) projected away. -/
def flagsLoop : ModeTable → Bool → List Nat → ModeTable × Bool
  | t, pos, [] => (t, pos)
  | t, pos, c :: cs =>
    if c = 43 then flagsLoop t true cs
    else if c = 45 then flagsLoop t false cs
    else
      flagsLoop
        (match getModeBool t c with
         | none => t
         | some target => if target ≠ pos then setModeBool t c pos else t)
        pos cs

theorem modeLoop_flags (l : List Nat) (s : ModeApplyState) :
    (modeLoop s l).table = (flagsLoop s.table s.positive l).1 ∧
    (modeLoop s l).positive = (flagsLoop s.table s.positive l).2 := by
  induction l generalizing s with
  | nil => exact ⟨rfl, rfl⟩
  | cons c cs ih =>
    simp only [modeLoop, flagsLoop]
    split
    · exact ih _
    · split
      · exact ih _
      · have hstep : (applyModeStep s c).table =
            (match getModeBool s.table c with
             | none => s.table
             | some target => if target ≠ s.positive then setModeBool s.table c s.positive else s.table) ∧
            (applyModeStep s c).positive = s.positive := by
          unfold applyModeStep
          cases getModeBool s.table c with
          | none => exact ⟨rfl, rfl⟩
          | some target =>
            by_cases h : target ≠ s.positive <;> simp [h]
        rcases hstep with ⟨h₁, h₂⟩
        rcases ih (applyModeStep s c) with ⟨ih₁, ih₂⟩
        rw [ih₁, ih₂, h₁, h₂]
        exact ⟨rfl, rfl⟩

theorem flagsLoop_cons_plus (t : ModeTable) (pos : Bool) (cs : List Nat) :
    flagsLoop t pos (43 :: cs) = flagsLoop t true cs := by
  simp [flagsLoop]

theorem flagsLoop_cons_minus (t : ModeTable) (pos : Bool) (cs : List Nat) :
    flagsLoop t pos (45 :: cs) = flagsLoop t false cs := by
  norm_num [flagsLoop]

/-! ## Claim theorems -/

/-- C1 (counterexample): the claim's post-teardown condition, stated over the
teardown routine `clientDrop`.  The four conjuncts are the claim's: the
client is gone from every channel member map, from `by_nick`, from
`by_addr`, and no surviving channel's membership consists of the client
alone. -/
def specC1 (c : ClientRec) (s' : ServerStateRec) : Prop :=
  (∀ p ∈ s'.channels, c.addr ∉ p.2.users) ∧
  (∀ n ∈ c.nick.toList, ∀ kv ∈ s'.users, kv.1 ≠ upperStr n) ∧
  c.addr ∉ s'.clients ∧
  (∀ p ∈ s'.channels, ∃ a ∈ p.2.users, a ≠ c.addr)

/-- C1 is falsified on a registered client that is the sole member of one
channel: after the drop routine the channel still maps the client's address
(to a dead weak reference), and the now-memberless channel stays in
`by_channel`. -/
theorem c1_counterexample :
    ¬ specC1 ⟨str "1.2.3.4:5", some (str "alice")⟩
      (clientDrop ⟨str "1.2.3.4:5", some (str "alice")⟩
        ⟨[str "1.2.3.4:5"], [(str "ALICE", str "1.2.3.4:5")],
         [(str "#A", ⟨str "#a", [str "1.2.3.4:5"]⟩)]⟩) := by
  unfold specC1
  decide

/-- C1 (amended): teardown removes the uppercased nick from `by_nick` (when
registered) and the address from `by_addr`, but leaves `by_channel` — and
hence every channel's member map — completely unchanged. -/
theorem c1_teardown_registries (c : ClientRec) (s : ServerStateRec) :
    (c.addr ∉ (clientDrop c s).clients) ∧
    (∀ n, c.nick = some n → ∀ kv ∈ (clientDrop c s).users, kv.1 ≠ upperStr n) ∧
    (clientDrop c s).channels = s.channels := by
  obtain ⟨caddr, cnick⟩ := c
  cases cnick with
  | none =>
    refine ⟨?_, ?_, rfl⟩
    · intro hmem
      simp only [clientDrop, List.mem_filter, decide_eq_true_eq] at hmem
      exact hmem.2 rfl
    · intro n hn
      cases hn
  | some n' =>
    refine ⟨?_, ?_, rfl⟩
    · intro hmem
      simp only [clientDrop, List.mem_filter, decide_eq_true_eq] at hmem
      exact hmem.2 rfl
    · intro n hn kv hkv
      cases hn
      simp only [clientDrop, List.mem_filter, decide_eq_true_eq] at hkv
      exact hkv.2

/-- C1 witness: the amended theorem evaluated on the counterexample state. -/
theorem c1_teardown_registries_witness :
    (str "1.2.3.4:5" ∉ (clientDrop ⟨str "1.2.3.4:5", some (str "alice")⟩
        ⟨[str "1.2.3.4:5"], [(str "ALICE", str "1.2.3.4:5")],
         [(str "#A", ⟨str "#a", [str "1.2.3.4:5"]⟩)]⟩).clients) ∧
    ((str "ALICE", str "1.2.3.4:5") ∉ (clientDrop ⟨str "1.2.3.4:5", some (str "alice")⟩
        ⟨[str "1.2.3.4:5"], [(str "ALICE", str "1.2.3.4:5")],
         [(str "#A", ⟨str "#a", [str "1.2.3.4:5"]⟩)]⟩).users) := by
  have h := c1_teardown_registries ⟨str "1.2.3.4:5", some (str "alice")⟩
    ⟨[str "1.2.3.4:5"], [(str "ALICE", str "1.2.3.4:5")],
     [(str "#A", ⟨str "#a", [str "1.2.3.4:5"]⟩)]⟩
  refine ⟨h.1, fun hmem => ?_⟩
  exact h.2.1 (str "alice") rfl _ hmem (by decide)

/-- C6 (counterexample): applying `-i` then `i` to the default user mode sets
`invisible` back to `true`, while applying the concatenation `-ii` leaves it
`false`, because the sign state carries over inside one call but resets to
positive at the start of a new call. -/
theorem c6_counterexample :
    (applyModestring (applyModestring (userModeTable defaultUserMode) [45, 105]).table
        [105]).table ≠
    (applyModestring (userModeTable defaultUserMode) ([45, 105] ++ [105])).table := by
  decide

/-- C6 (amended): for every mode record and modestrings `S1`, `S2`, applying
`S1` then `S2` leaves the flags as applying `S1 ++ S2` in one call, provided
`S2` is empty or begins with an explicit `+` or `-` sign (`43`/`45`); an
unsigned `S2` would inherit `S1`'s final sign inside the concatenation. -/
theorem c6_apply_append (t : ModeTable) (s₁ s₂ : List Nat)
    (h : s₂ = [] ∨ s₂.head? = some 43 ∨ s₂.head? = some 45) :
    (applyModestring (applyModestring t s₁).table s₂).table =
    (applyModestring t (s₁ ++ s₂)).table := by
  unfold applyModestring
  rw [modeLoop_append]
  rcases modeLoop_flags s₂
    { table := (modeLoop { table := t, applied := [], lastPositiveApplied := true,
                           positive := true, hadUnknown := false, unknownMode := '\x00' } s₁).table,
      applied := [], lastPositiveApplied := true, positive := true,
      hadUnknown := false, unknownMode := '\x00' } with ⟨hl, _⟩
  rcases modeLoop_flags s₂
    (modeLoop { table := t, applied := [], lastPositiveApplied := true,
                positive := true, hadUnknown := false, unknownMode := '\x00' } s₁) with ⟨hr, _⟩
  rw [hl, hr]
  rcases h with rfl | h | h
  · rfl
  · rcases s₂ with _ | ⟨c, cs⟩
    · cases h
    · cases h
      rw [flagsLoop_cons_plus, flagsLoop_cons_plus]
  · rcases s₂ with _ | ⟨c, cs⟩
    · cases h
    · cases h
      rw [flagsLoop_cons_minus, flagsLoop_cons_minus]

/-- C6 witness: the amended composition law evaluated on the default user
mode with `S1 = "-i"`, `S2 = "+i"`. -/
theorem c6_apply_append_witness :
    (applyModestring (applyModestring (userModeTable defaultUserMode) [45, 105]).table
        [43, 105]).table =
    (applyModestring (userModeTable defaultUserMode) ([45, 105] ++ [43, 105])).table :=
  c6_apply_append (userModeTable defaultUserMode) [45, 105] [43, 105] (Or.inr (Or.inl rfl))

/-- C7 (counterexample): with the configured server name `srv`, a WHOIS with
parameters `srv alice` must be accepted by the claim (first parameter is our
server) and should look up `alice`, who exists; the handler instead replies
`ERR_NOSUCHSERVER` because it compares the first parameter against the
*second*, not against the server name. -/
theorem c7_counterexample :
    handleWhois [str "alice"] [str "srv", str "alice"] =
      WhoisOutcome.errNoSuchServer (str "srv") ∧
    WhoisOutcome.errNoSuchServer (str "srv") ≠ WhoisOutcome.found (str "alice") := by
  decide

/-- C7 (amended): on a two-parameter WHOIS the handler replies
`ERR_NOSUCHSERVER` exactly when the first parameter differs from the second
(the configured server name is never consulted); when the two parameters are
equal it processes the first `,`-separated nickmask, replying with the WHOIS
sequence on an exact nick match and `ERR_NOSUCHNICK` otherwise. -/
theorem c7_whois_two_params (userNicks : List Str) (m₁ m₂ : Str) :
    (handleWhois userNicks [m₁, m₂] = WhoisOutcome.errNoSuchServer m₁ ↔ m₁ ≠ m₂) ∧
    (m₁ = m₂ →
      handleWhois userNicks [m₁, m₂] =
        (if userNicks.contains ((splitChar ',' m₂).headD []) then
          WhoisOutcome.found ((splitChar ',' m₂).headD [])
         else WhoisOutcome.notFound ((splitChar ',' m₂).headD []))) := by
  constructor
  · constructor
    · intro hout heq
      subst heq
      simp only [handleWhois] at hout
      rw [if_neg (fun h : m₁ ≠ m₁ => h rfl)] at hout
      split at hout <;> exact WhoisOutcome.noConfusion hout
    · intro hne
      simp only [handleWhois]
      rw [if_pos hne]
  · intro heq
    subst heq
    simp only [handleWhois]
    rw [if_neg (fun h : m₁ ≠ m₁ => h rfl)]

/-- C7 witness: the amended description evaluated at concrete inputs. -/
theorem c7_whois_two_params_witness :
    handleWhois [str "bob"] [str "srv", str "bob"] =
      WhoisOutcome.errNoSuchServer (str "srv") ∧
    handleWhois [str "bob"] [str "bob,x", str "bob,x"] =
      WhoisOutcome.found (str "bob") := by
  constructor
  · exact ((c7_whois_two_params [str "bob"] (str "srv") (str "bob")).1).mpr (by decide)
  · exact ((c7_whois_two_params [str "bob"] (str "bob,x") (str "bob,x")).2 rfl).trans
      (by decide)

/-- C8 (counterexample): `bob` is registered (by_nick key `BOB`), the
requester is `alice`, and the target is `bob` — another existing user whose
nick matches case-insensitively, so the claim demands `ERR_USERSDONTMATCH`;
the handler looks up the verbatim target among the uppercased keys, misses,
and replies `ERR_NO_SUCH_NICK`. -/
theorem c8_counterexample :
    handleModeRoute [] [str "BOB"] (str "alice") [str "bob"] =
      ModeRoute.noSuchNick (str "bob") ∧
    upperStr (str "bob") = str "BOB" ∧
    ModeRoute.noSuchNick (str "bob") ≠ ModeRoute.usersDontMatch := by
  decide

/-- C8 (amended): for a non-`#` target different from the requester's nick,
the handler replies `ERR_USERSDONTMATCH` exactly when the verbatim target
occurs among the keys of `by_nick` (which are uppercased nicks), and
`ERR_NO_SUCH_NICK` otherwise — so a target that matches a registered nick
only case-insensitively draws `ERR_NO_SUCH_NICK` unless it is written in the
uppercased key form. -/
theorem c8_mode_target_lookup (byChannelKeys byNickKeys : List Str)
    (clientNick target : Str) (ps : List Str)
    (h₁ : target.head? ≠ some '#') (h₂ : target ≠ clientNick) :
    (handleModeRoute byChannelKeys byNickKeys clientNick (target :: ps) =
        ModeRoute.usersDontMatch ↔ target ∈ byNickKeys) ∧
    (handleModeRoute byChannelKeys byNickKeys clientNick (target :: ps) =
        ModeRoute.noSuchNick target ↔ target ∉ byNickKeys) := by
  simp only [handleModeRoute, List.head?_cons, if_neg h₁, if_neg h₂]
  by_cases h : target ∈ byNickKeys
  · rw [if_pos (List.elem_iff.mpr h)]
    simp [h]
  · rw [if_neg (fun hc => h (List.elem_iff.mp hc))]
    simp [h]

/-- C8 witness: the amended lookup behaviour evaluated at concrete inputs. -/
theorem c8_mode_target_lookup_witness :
    handleModeRoute [] [str "BOB"] (str "alice") [str "BOB"] =
      ModeRoute.usersDontMatch ∧
    handleModeRoute [] [str "BOB"] (str "alice") [str "bob"] =
      ModeRoute.noSuchNick (str "bob") := by
  constructor
  · exact ((c8_mode_target_lookup [] [str "BOB"] (str "alice") (str "BOB") []
      (by decide) (by decide)).1).mpr (by decide)
  · exact ((c8_mode_target_lookup [] [str "BOB"] (str "alice") (str "bob") []
      (by decide) (by decide)).2).mpr (by decide)

/-- Preliminary for C9: on ASCII-only input the byte-index truncate always
lands on a character boundary, so it never panics. -/
theorem truncAt_ascii (s : Str) (n : Nat) (h : ∀ c ∈ s, c.val < 128) :
    ∃ u, truncAt s n = some u := by
  induction s generalizing n with
  | nil =>
    cases n with
    | zero => exact ⟨[], rfl⟩
    | succ k => exact ⟨[], rfl⟩
  | cons c rest ih =>
    cases n with
    | zero => exact ⟨[], rfl⟩
    | succ k =>
      have hs : c.val < 128 := h c (List.mem_cons_self _ _)
      have hc : charUtf8Len c = 1 := by
        unfold charUtf8Len
        rw [if_pos hs]
      obtain ⟨u, hu⟩ := ih k (fun d hd => h d (List.mem_cons_of_mem _ hd))
      refine ⟨c :: u, ?_⟩
      unfold truncAt
      rw [hc, if_pos (by omega)]
      simp [hu]

/-- C9: `make_valid_username` is not total on UTF-8 input: with
`max_len = 16` and an input whose 15th byte falls inside the two-byte
character `é` (bytes 14–15), the byte-index `truncate(max_len - 1)` panics;
on ASCII input (and positive `max_len`) it always returns, with either
`None` or `Some` of `~` followed by a prefix of the input. -/
theorem c9_username_ascii_total :
    makeValidUsername 16 (str "aaaaaaaaaaaaaaé") = none ∧
    ∀ (maxLen : Nat) (s : Str), 1 ≤ maxLen → (∀ c ∈ s, c.val < 128) →
      ∃ r, makeValidUsername maxLen s = some r ∧
        (r = none ∨ ∃ p, r = some ('~' :: p)) := by
  constructor
  · decide
  · intro maxLen s h₁ hascii
    obtain ⟨u, hu⟩ := truncAt_ascii s (maxLen - 1) hascii
    unfold makeValidUsername
    rw [if_neg (by omega), hu]
    refine ⟨sanitizeUsername u, rfl, ?_⟩
    unfold sanitizeUsername
    by_cases he : (u.takeWhile (fun c => !isBadUsernameChar c)) = []
    · rw [if_neg (fun hne => hne he)]
      exact Or.inl rfl
    · rw [if_pos he]
      exact Or.inr ⟨_, rfl⟩

/-- C9 witness: the ASCII half applied at `max_len = 16`, input `abc`. -/
theorem c9_username_ascii_total_witness :
    makeValidUsername 16 (str "aaaaaaaaaaaaaaé") = none ∧
    ∃ r, makeValidUsername 16 (str "abc") = some r ∧
      (r = none ∨ ∃ p, r = some ('~' :: p)) :=
  ⟨c9_username_ascii_total.1,
   c9_username_ascii_total.2 16 (str "abc") (by decide) (by decide)⟩

/-- C10: a fresh connection's mode (`Default::default()`) is
`invisible = true`, `see_wallops = false`, `is_bot = false`; it serialises to
`+i`; and prepending such a user to the LUSERS statistics increments the
invisible count, leaves the visible count unchanged, and the 251 reply
reports exactly those numbers. -/
theorem c10_default_mode_invisible :
    newClientInitialMode = defaultUserMode ∧
    defaultUserMode.invisible = true ∧
    defaultUserMode.seeWallops = false ∧
    defaultUserMode.isBot = false ∧
    userModeToStr defaultUserMode = str "+i" ∧
    ∀ (st : StateModel) (nick : Str) (ms : List UserMode) (nc nk : Nat),
      numInvisiblesOf (defaultUserMode :: ms) = numInvisiblesOf ms + 1 ∧
      numVisiblesOf (defaultUserMode :: ms) = numVisiblesOf ms ∧
      (sendLusersMsgs st nick (defaultUserMode :: ms) nc nk).head? =
        some (makeReplyMsg st nick
          (.rplLuserClient (numVisiblesOf ms) (numInvisiblesOf ms + 1))) := by
  refine ⟨rfl, rfl, rfl, rfl, rfl, ?_⟩
  intro st nick ms nc nk
  have hinv : numInvisiblesOf (defaultUserMode :: ms) = numInvisiblesOf ms + 1 := by
    simp [numInvisiblesOf, defaultUserMode, List.filter]
  have hvis : numVisiblesOf (defaultUserMode :: ms) = numVisiblesOf ms := by
    simp only [numVisiblesOf, hinv, List.length_cons]
    omega
  refine ⟨hinv, hvis, ?_⟩
  simp only [sendLusersMsgs, List.head?_cons, hinv, hvis]

/-- C4: the registration finish sequence is exactly the thirteen numerics
001–004, 005, 251–255, 265, 266, 422 in order, each sourced from the server
name and carrying the client's nick as first parameter. -/
theorem c4_welcome_sequence (st : StateModel) (nick : Str)
    (userModes : List UserMode) (numChannels numClients : Nat) :
    (finishRegistrationMsgs st nick userModes numChannels numClients).map
        Message.command =
      [str "001", str "002", str "003", str "004", str "005", str "251",
       str "252", str "253", str "254", str "255", str "265", str "266",
       str "422"] ∧
    ∀ m ∈ finishRegistrationMsgs st nick userModes numChannels numClients,
      m.source = some st.serverName ∧ m.params.head? = some nick := by
  have base : ∀ rc, (makeReplyMsg st nick rc).source = some st.serverName ∧
      (makeReplyMsg st nick rc).params.head? = some nick := fun rc => ⟨rfl, rfl⟩
  constructor
  · rfl
  · intro m hm
    simp only [finishRegistrationMsgs, sendLusersMsgs, List.cons_append,
      List.nil_append, List.mem_cons, List.not_mem_nil, or_false] at hm
    rcases hm with rfl|rfl|rfl|rfl|rfl|rfl|rfl|rfl|rfl|rfl|rfl|rfl|rfl <;>
      exact base _

/-- A concrete server state used by the witnesses. -/
def sampleState : StateModel :=
  ⟨str "srv", str "net", str "0.1.0", str "today", 64, 50, 16, 390⟩

/-- C4 witness: the sequence evaluated on a concrete state, nick `alice`,
no users, no channels, no other clients. -/
theorem c4_welcome_sequence_witness :
    (finishRegistrationMsgs sampleState (str "alice") [] 0 0).map Message.command =
      [str "001", str "002", str "003", str "004", str "005", str "251",
       str "252", str "253", str "254", str "255", str "265", str "266",
       str "422"] ∧
    (makeReplyMsg sampleState (str "alice") .rplWelcome).source =
        some sampleState.serverName ∧
    (makeReplyMsg sampleState (str "alice") .rplWelcome).params.head? =
        some (str "alice") := by
  have h := c4_welcome_sequence sampleState (str "alice") [] 0 0
  exact ⟨h.1, h.2 _ (List.mem_cons_self _ _)⟩


/-! ## Claim C2: `split_trailing_args` -/

theorem byteLen_append (a b : Str) : byteLen (a ++ b) = byteLen a + byteLen b := by
  induction a with
  | nil => simp [byteLen]
  | cons c rest ih =>
    calc byteLen ((c :: rest) ++ b) = charUtf8Len c + byteLen (rest ++ b) := rfl
    _ = charUtf8Len c + (byteLen rest + byteLen b) := by rw [ih]
    _ = byteLen (c :: rest) + byteLen b := by simp [byteLen, Nat.add_assoc]

theorem trailingOf_pushParam (m : Message) (t : Str) :
    trailingOf (pushParam m t) = t := by
  simp [trailingOf, pushParam]

theorem joinSepAll_cons_of_ne (sep p : Str) (ps : List Str) (h : ps ≠ []) :
    joinSepAll sep (p :: ps) = p ++ sep ++ joinSepAll sep ps := by
  cases ps with
  | nil => exact absurd rfl h
  | cons q qs => simp [joinSepAll, List.append_assoc]

/-- The trailing parameters of the messages flushed by the splitting loop
concatenate (plainly — each flushed trailing already carries its pending
separator) to the accumulator followed by the separator-join of the
remaining items. -/
theorem splitAux_join (base : Message) (maxParamLen : Nat) (sep : Str) :
    ∀ (ps : List Str) (t : Str),
      ((splitAux base maxParamLen sep ps t).map trailingOf).flatten =
        t ++ joinSepAll sep ps := by
  intro ps
  induction ps with
  | nil =>
    intro t
    by_cases h : t = []
    · subst h
      simp [splitAux, joinSepAll]
    · simp [splitAux, h, trailingOf_pushParam, joinSepAll]
  | cons p ps ih =>
    intro t
    by_cases hf : (t ≠ [] ∧ maxParamLen ≤ byteLen t + (byteLen p + byteLen sep))
    · simp only [splitAux, if_pos hf, List.map_cons, List.flatten_cons,
        trailingOf_pushParam, ih]
      by_cases hps : ps = []
      · subst hps
        simp [joinSepAll]
      · rw [joinSepAll_cons_of_ne sep p ps hps]
        simp [hps, List.append_assoc]
    · simp only [splitAux, if_neg hf, ih]
      by_cases hps : ps = []
      · subst hps
        simp [joinSepAll]
      · rw [joinSepAll_cons_of_ne sep p ps hps]
        simp [hps, List.append_assoc]

/-- Every message the loop emits is the base with one trailing parameter
pushed, and — when every pending item (plus separator) is shorter than
`maxParamLen` and the accumulator is within bounds — that trailing is
strictly shorter than `maxParamLen`. -/
theorem splitAux_mem_bound (base : Message) (maxParamLen : Nat) (sep : Str) :
    ∀ (ps : List Str) (t : Str),
      (∀ p ∈ ps, byteLen p + byteLen sep < maxParamLen) →
      (t = [] ∨ byteLen t < maxParamLen) →
      ∀ m ∈ splitAux base maxParamLen sep ps t,
        ∃ t₀, m = pushParam base t₀ ∧ byteLen t₀ < maxParamLen := by
  intro ps
  induction ps with
  | nil =>
    intro t _ hinv m hm
    by_cases h : t = []
    · simp [splitAux, h] at hm
    · simp only [splitAux, if_neg h, List.mem_singleton] at hm
      rcases hinv with rfl | hlt
      · exact absurd rfl h
      · exact ⟨t, hm, hlt⟩
  | cons p ps ih =>
    intro t hitems hinv m hm
    have hp : byteLen p + byteLen sep < maxParamLen :=
      hitems p (List.mem_cons_self _ _)
    have hsep' : byteLen (if ps = [] then ([] : Str) else sep) ≤ byteLen sep := by
      by_cases hps : ps = [] <;> simp [hps, byteLen]
    by_cases hf : (t ≠ [] ∧ maxParamLen ≤ byteLen t + (byteLen p + byteLen sep))
    · simp only [splitAux, if_pos hf, List.mem_cons] at hm
      rcases hm with rfl | hm
      · rcases hinv with rfl | hlt
        · exact absurd rfl hf.1
        · exact ⟨t, rfl, hlt⟩
      · refine ih _ (fun q hq => hitems q (List.mem_cons_of_mem _ hq)) ?_ m hm
        right
        rw [byteLen_append]
        omega
    · simp only [splitAux, if_neg hf] at hm
      refine ih _ (fun q hq => hitems q (List.mem_cons_of_mem _ hq)) ?_ m hm
      right
      rw [byteLen_append, byteLen_append]
      rcases hinv with rfl | hlt
      · simp only [byteLen]
        omega
      · have hnot : ¬ (maxParamLen ≤ byteLen t + (byteLen p + byteLen sep)) := by
          by_cases ht : t = []
          · subst ht
            simp only [byteLen]
            omega
          · exact fun hle => hf ⟨ht, hle⟩
        omega

theorem renderLast_le (t : Str) : byteLen (renderParams [t]) ≤ 2 + byteLen t := by
  simp only [renderParams]
  by_cases h : needsColon t
  · rw [if_pos h, byteLen_append]
    have h2 : byteLen [' ', ':'] = 2 := by decide
    omega
  · rw [if_neg h, byteLen_append]
    have h1 : byteLen [' '] = 1 := by decide
    omega

theorem renderSingle_ge (p : Str) : 1 + byteLen p ≤ byteLen (renderParams [p]) := by
  simp only [renderParams]
  by_cases h : needsColon p
  · rw [if_pos h, byteLen_append]
    have h2 : byteLen [' ', ':'] = 2 := by decide
    omega
  · rw [if_neg h, byteLen_append]
    have h1 : byteLen [' '] = 1 := by decide
    omega

theorem renderParams_append_le (P : List Str) (t : Str) :
    byteLen (renderParams (P ++ [t])) ≤ byteLen (renderParams P) + 2 + byteLen t := by
  induction P with
  | nil =>
    simp only [List.nil_append]
    have := renderLast_le t
    have h0 : byteLen (renderParams []) = 0 := rfl
    omega
  | cons p ps ih =>
    cases ps with
    | nil =>
      have hsp : charUtf8Len ' ' = 1 := by decide
      calc byteLen (renderParams ([p] ++ [t]))
          = charUtf8Len ' ' + (byteLen p + byteLen (renderParams [t])) := by
            show byteLen (' ' :: (p ++ renderParams [t])) = _
            simp [byteLen, byteLen_append]
        _ ≤ charUtf8Len ' ' + (byteLen p + (2 + byteLen t)) := by
            have := renderLast_le t
            omega
        _ ≤ byteLen (renderParams [p]) + 2 + byteLen t := by
            have := renderSingle_ge p
            omega
    | cons q qs =>
      calc byteLen (renderParams ((p :: q :: qs) ++ [t]))
          = charUtf8Len ' ' + (byteLen p + byteLen (renderParams ((q :: qs) ++ [t]))) := by
            show byteLen (' ' :: (p ++ renderParams ((q :: qs) ++ [t]))) = _
            simp [byteLen, byteLen_append]
        _ ≤ charUtf8Len ' ' + (byteLen p + (byteLen (renderParams (q :: qs)) + 2 + byteLen t)) := by
            have := ih
            omega
        _ = byteLen (renderParams (p :: q :: qs)) + 2 + byteLen t := by
            show _ = byteLen (' ' :: (p ++ renderParams (q :: qs))) + 2 + byteLen t
            simp [byteLen, byteLen_append]
            omega

/-- Pushing one more parameter onto a message lengthens its serialised line
by at most the parameter's bytes plus two (`" :"`). -/
theorem byteLen_toLine_pushParam (m : Message) (t : Str) :
    byteLen (pushParam m t).toLine ≤ byteLen m.toLine + 2 + byteLen t := by
  obtain ⟨tg, src, cmd, ps⟩ := m
  by_cases hc : cmd = []
  · simp only [Message.toLine, pushParam]
    rw [if_pos hc, if_pos hc]
    omega
  · simp only [Message.toLine, pushParam]
    rw [if_neg hc, if_neg hc]
    simp only [byteLen_append]
    have := renderParams_append_le ps t
    omega

/-- Claim C2 exactly as the specification states it: every emitted line fits
in `MAX_LENGTH` bytes, and the trailing parameters joined *with the
separator* reproduce the separator-join of the items. -/
def specSplitTrailing (base : Message) (items : List Str) (sep : Str) : Prop :=
  (∀ m ∈ base.splitTrailingArgs items sep, byteLen m.toLine ≤ MAX_LENGTH) ∧
  joinSepAll sep ((base.splitTrailingArgs items sep).map trailingOf) =
    joinSepAll sep items

set_option maxRecDepth 4000 in
/-- C2 (counterexample): a 500-byte-command base (serialised length 502,
leaving `max_param_len = 10`) with items `aaaa`, `bbb`, `cc` and separator
`" "` produces a first message of 513 bytes (the flushed trailing
`"aaaa bbb "` has 9 bytes and gains a `" :"` prefix), and joining the
trailing params with the separator doubles the separator at the flush
boundary. -/
theorem c2_counterexample :
    ¬ specSplitTrailing ⟨[], none, List.replicate 500 'A', []⟩
        [str "aaaa", str "bbb", str "cc"] [' '] := by
  unfold specSplitTrailing
  decide

/-- C2 (amended): when every item (plus separator) is shorter than
`512 - base_len`, each emitted message serialises to at most 513 bytes
(`MAX_LENGTH + 1`, reached when a flushed trailing of `512 - base_len - 1`
bytes needs the `" :"` prefix), and the *plain* concatenation of the
trailing params — each flushed trailing already ends with the pending
separator — equals the separator-join of the items. -/
theorem c2_split_bound_and_concat (base : Message) (items : List Str) (sep : Str)
    (hitems : ∀ p ∈ items, byteLen p + byteLen sep < MAX_LENGTH - byteLen base.toLine) :
    (∀ m ∈ base.splitTrailingArgs items sep, byteLen m.toLine ≤ MAX_LENGTH + 1) ∧
    ((base.splitTrailingArgs items sep).map trailingOf).flatten =
      joinSepAll sep items := by
  constructor
  · intro m hm
    obtain ⟨t₀, rfl, hlt⟩ :=
      splitAux_mem_bound base (MAX_LENGTH - byteLen base.toLine) sep items []
        hitems (Or.inl rfl) m hm
    have hb := byteLen_toLine_pushParam base t₀
    simp only [MAX_LENGTH] at hlt ⊢
    omega
  · have h := splitAux_join base (MAX_LENGTH - byteLen base.toLine) sep items []
    simpa using h

/-- C2 witness: the amended theorem evaluated on a one-byte command and the
items `hi`, `yo`. -/
theorem c2_split_bound_and_concat_witness :
    (∀ m ∈ Message.splitTrailingArgs ⟨[], none, ['A'], []⟩
        [str "hi", str "yo"] [' '], byteLen m.toLine ≤ MAX_LENGTH + 1) ∧
    ((Message.splitTrailingArgs ⟨[], none, ['A'], []⟩
        [str "hi", str "yo"] [' ']).map trailingOf).flatten =
      joinSepAll [' '] [str "hi", str "yo"] :=
  c2_split_bound_and_concat ⟨[], none, ['A'], []⟩ [str "hi", str "yo"] [' ']
    (by decide)

/-! ## Claim C5: JOIN message order towards the joining client -/

/-- Claim C5 as stated: the joining client first receives its own
`:<prefix> JOIN <chan>`, then a 353 NAMES reply whose name list contains its
own nick, then the 366 end-of-names. -/
def specC5 (st : StateModel) (nick pfx chanName : Str) (msgs : List Message) : Prop :=
  match msgs with
  | [m₁, m₂, m₃] =>
    m₁ = { tags := [], source := some pfx, command := str "JOIN",
           params := [chanName] } ∧
    m₂.command = str "353" ∧ nick ∈ splitChar ' ' (trailingOf m₂) ∧
    m₃ = makeReplyMsg st nick (.rplEndOfNames chanName)
  | _ => False

/-- C5 (counterexample): on a fresh `#room`, `handle_join` delivers exactly
`366` followed by the `JOIN` echo to the joining client — there is no 353 at
all (the name list is computed before the client is inserted and is empty),
and the JOIN comes last, not first. -/
theorem c5_counterexample :
    ¬ specC5 sampleState (str "alice") (str "alice!~alice@127.0.0.1")
      (str "#room")
      (handleJoinSelfMsgs sampleState (str "alice")
        (str "alice!~alice@127.0.0.1") (str "#room") none []) := by
  intro hspec
  have h : handleJoinSelfMsgs sampleState (str "alice")
      (str "alice!~alice@127.0.0.1") (str "#room") none [] =
      [makeReplyMsg sampleState (str "alice") (.rplEndOfNames (str "#room")),
       { tags := [], source := some (str "alice!~alice@127.0.0.1"),
         command := str "JOIN", params := [str "#room"] }] := by
    decide
  rw [h] at hspec
  exact hspec

/-- C5 (amended): the joining client receives, in order, the topic replies
(when a topic is set), the 353 NAMES replies computed from the members
present *before* the join — whose trailing parameters concatenate to the
space-join of exactly those nicks, so they never include the joining
client — then 366, and its own JOIN echo last; on a previously empty (or
newly created) channel no 353 is sent at all. -/
theorem c5_join_self_order (st : StateModel) (nick pfx chanName : Str)
    (topic : Option TopicRec) (preMemberNicks : List Str) :
    handleJoinSelfMsgs st nick pfx chanName topic preMemberNicks =
      getJoinMsgs st nick chanName topic preMemberNicks ++
        [{ tags := [], source := some pfx, command := str "JOIN",
           params := [chanName] }] ∧
    (handleJoinSelfMsgs st nick pfx chanName topic preMemberNicks).getLast? =
      some { tags := [], source := some pfx, command := str "JOIN",
             params := [chanName] } ∧
    ((Message.splitTrailingArgs
        (makeReplyMsg st nick (.rplNameReply '=' chanName))
        preMemberNicks (str " ")).map trailingOf).flatten =
      joinSepAll (str " ") preMemberNicks ∧
    handleJoinSelfMsgs st nick pfx chanName none [] =
      [makeReplyMsg st nick (.rplEndOfNames chanName),
       { tags := [], source := some pfx, command := str "JOIN",
         params := [chanName] }] := by
  refine ⟨rfl, ?_, ?_, rfl⟩
  · exact List.getLast?_concat _
  · have h := splitAux_join (makeReplyMsg st nick (.rplNameReply '=' chanName))
      (MAX_LENGTH - byteLen (makeReplyMsg st nick (.rplNameReply '=' chanName)).toLine)
      (str " ") preMemberNicks []
    simpa using h

/-! ## Claim C3: parse / serialise round trip — string toolkit -/

theorem takeWhile_append_not_mem (c : Char) (w r : Str) (hw : c ∉ w) :
    (w ++ r).takeWhile (· ≠ c) = w ++ r.takeWhile (· ≠ c) := by
  induction w with
  | nil => simp
  | cons a ws ih =>
    have ha : a ≠ c := fun h => hw (h ▸ List.mem_cons_self a ws)
    have hw' : c ∉ ws := fun h => hw (List.mem_cons_of_mem _ h)
    simp only [List.cons_append, List.takeWhile_cons]
    rw [if_pos (show (decide (a ≠ c)) = true by simp [ha]), ih hw']

theorem dropWhile_append_not_mem (c : Char) (w r : Str) (hw : c ∉ w) :
    (w ++ r).dropWhile (· ≠ c) = r.dropWhile (· ≠ c) := by
  induction w with
  | nil => simp
  | cons a ws ih =>
    have ha : a ≠ c := fun h => hw (h ▸ List.mem_cons_self a ws)
    have hw' : c ∉ ws := fun h => hw (List.mem_cons_of_mem _ h)
    simp only [List.cons_append, List.dropWhile_cons]
    rw [if_pos (show (decide (a ≠ c)) = true by simp [ha]), ih hw']

theorem takeWhile_head_eq (c : Char) (r : Str) :
    (c :: r).takeWhile (· ≠ c) = [] := by
  simp [List.takeWhile_cons]

theorem dropWhile_head_eq (c : Char) (r : Str) :
    (c :: r).dropWhile (· ≠ c) = c :: r := by
  simp [List.dropWhile_cons]

theorem takeWhile_not_mem (c : Char) (w : Str) (hw : c ∉ w) :
    w.takeWhile (· ≠ c) = w := by
  have h := takeWhile_append_not_mem c w [] hw
  simpa using h

theorem dropWhile_not_mem (c : Char) (w : Str) (hw : c ∉ w) :
    w.dropWhile (· ≠ c) = [] := by
  have h := dropWhile_append_not_mem c w [] hw
  simpa using h

theorem splitChar_shape (c : Char) (l : Str) :
    ∃ q qs, splitChar c l = q :: qs := by
  cases l with
  | nil => exact ⟨[], [], rfl⟩
  | cons a r =>
    by_cases h : a = c
    · exact ⟨[], splitChar c r, by simp [splitChar, h]⟩
    · exact ⟨a :: (splitChar c r).headD [], (splitChar c r).tail, by simp [splitChar, h]⟩

theorem splitChar_cons_ne (c a : Char) (r : Str) (h : a ≠ c) :
    splitChar c (a :: r) =
      (a :: (splitChar c r).headD []) :: (splitChar c r).tail := by
  simp [splitChar, h]

theorem splitChar_cons_eq (c : Char) (r : Str) :
    splitChar c (c :: r) = [] :: splitChar c r := by
  simp [splitChar]

theorem splitChar_append (c : Char) (w r : Str) (hw : c ∉ w) :
    splitChar c (w ++ c :: r) = w :: splitChar c r := by
  induction w with
  | nil => simp [splitChar_cons_eq]
  | cons a ws ih =>
    have ha : a ≠ c := fun h => hw (h ▸ List.mem_cons_self a ws)
    have hw' : c ∉ ws := fun h => hw (List.mem_cons_of_mem _ h)
    rw [List.cons_append, splitChar_cons_ne c a _ ha, ih hw']
    simp

theorem splitChar_of_not_mem (c : Char) (w : Str) (hw : c ∉ w) :
    splitChar c w = [w] := by
  induction w with
  | nil => rfl
  | cons a ws ih =>
    have ha : a ≠ c := fun h => hw (h ▸ List.mem_cons_self a ws)
    have hw' : c ∉ ws := fun h => hw (List.mem_cons_of_mem _ h)
    rw [splitChar_cons_ne c a _ ha, ih hw']
    simp

theorem joinSep_cons_of_ne (c : Char) (p : Str) (ps : List Str) (h : ps ≠ []) :
    joinSep c (p :: ps) = p ++ c :: joinSep c ps := by
  cases ps with
  | nil => exact absurd rfl h
  | cons q qs => rfl

theorem joinSep_splitChar (c : Char) (p : Str) :
    joinSep c (splitChar c p) = p := by
  induction p with
  | nil => rfl
  | cons a r ih =>
    obtain ⟨q, qs, hqq⟩ := splitChar_shape c r
    by_cases h : a = c
    · rw [h, splitChar_cons_eq,
        joinSep_cons_of_ne c [] (splitChar c r) (by rw [hqq]; simp), ih]
      rfl
    · rw [splitChar_cons_ne c a r h, hqq]
      cases qs with
      | nil =>
        rw [hqq] at ih
        show a :: q = a :: r
        exact congrArg (a :: ·) ih
      | cons q' qs' =>
        rw [hqq] at ih
        simp only [List.headD_cons, List.tail_cons]
        rw [joinSep_cons_of_ne c (a :: q) (q' :: qs') (by simp)]
        rw [joinSep_cons_of_ne c q (q' :: qs') (by simp)] at ih
        show a :: (q ++ c :: joinSep c (q' :: qs')) = a :: r
        exact congrArg (a :: ·) ih

theorem splitChar_mem_not_mem (c : Char) (l : Str) :
    ∀ w ∈ splitChar c l, c ∉ w := by
  induction l with
  | nil =>
    intro w hw
    simp [splitChar] at hw
    simp [hw]
  | cons a r ih =>
    intro w hw
    by_cases h : a = c
    · subst h
      rw [splitChar_cons_eq] at hw
      rcases List.mem_cons.mp hw with rfl | hw'
      · simp
      · exact ih w hw'
    · obtain ⟨q, qs, hqq⟩ := splitChar_shape c r
      rw [splitChar_cons_ne c a r h, hqq] at hw
      rcases List.mem_cons.mp hw with rfl | hw'
      · intro hc
        rcases List.mem_cons.mp hc with rfl | hc'
        · exact h rfl
        · exact ih q (hqq ▸ List.mem_cons_self _ _) hc'
      · exact ih w (hqq ▸ List.mem_cons_of_mem _ hw')

theorem foldl_join (ws : List Str) :
    ∀ s, ws.foldl (fun s w => s ++ ' ' :: w) s = joinSep ' ' (s :: ws) := by
  induction ws with
  | nil => intro s; rfl
  | cons w ws ih =>
    intro s
    rw [List.foldl_cons, ih (s ++ ' ' :: w),
        joinSep_cons_of_ne ' ' s (w :: ws) (by simp)]
    cases ws with
    | nil => rfl
    | cons v vs =>
      rw [joinSep_cons_of_ne ' ' (s ++ ' ' :: w) (v :: vs) (by simp),
          joinSep_cons_of_ne ' ' w (v :: vs) (by simp)]
      simp

theorem trimLeft_eq_self (l : Str)
    (h : ∀ c, l.head? = some c → rustIsWhitespace c = false) : trimLeft l = l := by
  cases l with
  | nil => rfl
  | cons a r =>
    show (a :: r).dropWhile rustIsWhitespace = a :: r
    rw [List.dropWhile_cons, if_neg]
    rw [h a rfl]
    simp

theorem trimLeft_cons_space (l : Str) : trimLeft (' ' :: l) = trimLeft l := by
  show (' ' :: l).dropWhile rustIsWhitespace = l.dropWhile rustIsWhitespace
  rw [List.dropWhile_cons, if_pos (by decide)]

theorem head_trimLeft_not_ws (l : Str) :
    ∀ c, (trimLeft l).head? = some c → rustIsWhitespace c = false := by
  induction l with
  | nil => intro c h; cases h
  | cons a r ih =>
    intro c h
    by_cases ha : rustIsWhitespace a
    · rw [show trimLeft (a :: r) = trimLeft r from by
        show (a :: r).dropWhile rustIsWhitespace = _
        rw [List.dropWhile_cons, if_pos ha]
        rfl] at h
      exact ih c h
    · rw [show trimLeft (a :: r) = a :: r from by
        show (a :: r).dropWhile rustIsWhitespace = _
        rw [List.dropWhile_cons, if_neg (by simpa using ha)]] at h
      cases h
      simpa using ha

theorem trimLeft_idem (l : Str) : trimLeft (trimLeft l) = trimLeft l :=
  trimLeft_eq_self _ (head_trimLeft_not_ws l)

/-! Well-formedness invariants satisfied by every parser output, strong
enough for the serialised line to parse back to the same message. -/

/-- Tag fields produced by the parser: names are free of spaces, `;`, `=`;
values are free of spaces and `;`. -/
def WfTag (t : MessageTag) : Prop :=
  ' ' ∉ t.name ∧ ';' ∉ t.name ∧ '=' ∉ t.name ∧
  ∀ v, t.value = some v → ' ' ∉ v ∧ ';' ∉ v

/-- A non-final parameter: non-empty single word not starting with `:`. -/
def WfNonFinal (p : Str) : Prop := p ≠ [] ∧ ' ' ∉ p ∧ p.head? ≠ some ':'

/-- All parameters but the last are `WfNonFinal`; the final parameter is
unconstrained (it round-trips through the `:`-trailing form). -/
def WfParams : List Str → Prop
  | [] => True
  | [_] => True
  | p :: rest => WfNonFinal p ∧ WfParams rest

/-- Parser-output invariants of a whole message. -/
def WfMsg (m : Message) : Prop :=
  (∀ t ∈ m.tags, WfTag t) ∧
  (∀ s, m.source = some s → ' ' ∉ s) ∧
  ' ' ∉ m.command ∧
  (m.command = [] → m.params = []) ∧
  (∀ c, m.command.head? = some c → rustIsWhitespace c = false) ∧
  (m.tags = [] → m.source = none → m.command.head? ≠ some '@') ∧
  (m.source = none → m.command.head? ≠ some ':') ∧
  WfParams m.params

theorem wfParams_cons (p : Str) (ps : List Str) (hp : WfNonFinal p)
    (hps : WfParams ps) : WfParams (p :: ps) := by
  cases ps with
  | nil => trivial
  | cons q qs => exact ⟨hp, hps⟩

theorem parseParams_cons_of (w : Str) (ws : List Str) (hne : w ≠ [])
    (hcol : w.head? ≠ some ':') :
    parseParams (w :: ws) = w :: parseParams ws := by
  simp only [parseParams]
  rw [if_neg hcol, if_neg hne]

theorem parseParams_trailing (q : Str) (qs : List Str) :
    parseParams ((':' :: q) :: qs) =
      [qs.foldl (fun s v => s ++ ' ' :: v) q] := by
  simp [parseParams, List.head?_cons, List.tail_cons]

theorem needsColon_false (p : Str) (h : ¬ needsColon p = true) :
    ' ' ∉ p ∧ ':' ∉ p ∧ p ≠ [] := by
  simp only [needsColon, decide_eq_true_eq, not_or] at h
  exact ⟨fun hm => h.1 (List.elem_iff.mpr hm),
         fun hm => h.2.1 (List.elem_iff.mpr hm), h.2.2⟩

/-- Re-parsing the rendered parameter list: for a well-formed parameter list
the words after the first space of `renderParams ps` parse back to `ps`. -/
theorem renderParams_reparse :
    ∀ ps, WfParams ps → ps ≠ [] →
      ∃ X, renderParams ps = ' ' :: X ∧ parseParams (splitChar ' ' X) = ps := by
  intro ps
  induction ps with
  | nil => intro _ h; exact absurd rfl h
  | cons p rest ih =>
    intro hwf _
    cases rest with
    | nil =>
      by_cases hcolon : needsColon p = true
      · refine ⟨':' :: p, by simp [renderParams, hcolon], ?_⟩
        obtain ⟨q, qs, hqq⟩ := splitChar_shape ' ' p
        rw [splitChar_cons_ne ' ' ':' p (by decide), hqq]
        simp only [List.headD_cons, List.tail_cons]
        rw [parseParams_trailing, foldl_join, ← hqq, joinSep_splitChar]
      · obtain ⟨hsp, hcp, hne⟩ := needsColon_false p hcolon
        refine ⟨p, by simp [renderParams, hcolon], ?_⟩
        rw [splitChar_of_not_mem ' ' p hsp,
            parseParams_cons_of p [] hne ?_]
        · rfl
        · intro hh
          cases p with
          | nil => cases hh
          | cons a r =>
            cases hh
            exact hcp (List.mem_cons_self _ _)
    | cons q qs =>
      obtain ⟨hnf, hwfrest⟩ := hwf
      obtain ⟨X', hrender, hparse⟩ := ih hwfrest (by simp)
      refine ⟨p ++ ' ' :: X', ?_, ?_⟩
      · show ' ' :: (p ++ renderParams (q :: qs)) = ' ' :: (p ++ ' ' :: X')
        rw [hrender]
      · rw [splitChar_append ' ' p X' hnf.2.1,
            parseParams_cons_of p _ hnf.1 hnf.2.2, hparse]

theorem parseCommandParams_nil : parseCommandParams [] = ([], []) := rfl

theorem parseCommandParams_space (l : Str) :
    parseCommandParams (' ' :: l) = parseCommandParams l := by
  unfold parseCommandParams
  rw [trimLeft_cons_space]

/-- Re-parsing `command ++ renderParams params` recovers the command and the
parameters, for a well-formed non-empty command and parameter list. -/
theorem parseCommandParams_render (C : Str) (ps : List Str)
    (hC : C ≠ []) (hCsp : ' ' ∉ C)
    (hChead : ∀ c, C.head? = some c → rustIsWhitespace c = false)
    (hps : WfParams ps) :
    parseCommandParams (C ++ renderParams ps) = (C, ps) := by
  have htrim : trimLeft (C ++ renderParams ps) = C ++ renderParams ps := by
    apply trimLeft_eq_self
    intro c hc
    cases C with
    | nil => exact absurd rfl hC
    | cons a r =>
      rw [List.cons_append, List.head?_cons] at hc
      cases hc
      exact hChead c rfl
  unfold parseCommandParams
  rw [htrim]
  by_cases hne : ps = []
  · subst hne
    show ((splitChar ' ' (C ++ [])).headD [],
          parseParams (splitChar ' ' (C ++ [])).tail) = (C, [])
    rw [List.append_nil, splitChar_of_not_mem ' ' C hCsp]
    rfl
  · obtain ⟨X, hrender, hparse⟩ := renderParams_reparse ps hps hne
    rw [hrender, splitChar_append ' ' C X hCsp]
    simp [hparse]

theorem stripLineEnding_concat (x : Str) :
    stripLineEnding (x ++ ['\r', '\n']) = some x := by
  have hassoc : x ++ ['\r', '\n'] = (x ++ ['\r']) ++ ['\n'] := by simp
  unfold stripLineEnding
  rw [hassoc, List.getLast?_concat, if_pos rfl, List.dropLast_concat]
  dsimp only
  rw [List.getLast?_concat, if_pos rfl, List.dropLast_concat]

theorem takeWhile_word (w r : Str) (hw : ' ' ∉ w)
    (hr : r = [] ∨ r.head? = some ' ') : (w ++ r).takeWhile (· ≠ ' ') = w := by
  rcases hr with rfl | hh
  · simpa using takeWhile_not_mem ' ' w hw
  · cases r with
    | nil => cases hh
    | cons a r' =>
      rw [List.head?_cons] at hh
      cases hh
      rw [takeWhile_append_not_mem ' ' w _ hw, takeWhile_head_eq]
      simp

theorem dropWhile_word (w r : Str) (hw : ' ' ∉ w)
    (hr : r = [] ∨ r.head? = some ' ') : (w ++ r).dropWhile (· ≠ ' ') = r := by
  rcases hr with rfl | hh
  · simpa using dropWhile_not_mem ' ' w hw
  · cases r with
    | nil => cases hh
    | cons a r' =>
      rw [List.head?_cons] at hh
      cases hh
      rw [dropWhile_append_not_mem ' ' w _ hw, dropWhile_head_eq]

theorem tagToStr_not_mem (t : MessageTag) (ht : WfTag t) :
    ' ' ∉ tagToStr t ∧ ';' ∉ tagToStr t := by
  obtain ⟨hn1, hn2, hn3, hv⟩ := ht
  cases hval : t.value with
  | none =>
    unfold tagToStr
    rw [hval]
    exact ⟨hn1, hn2⟩
  | some v =>
    obtain ⟨hv1, hv2⟩ := hv v hval
    unfold tagToStr
    rw [hval]
    constructor <;> intro hm <;> rcases List.mem_append.mp hm with h | h
    · exact hn1 h
    · rcases List.mem_cons.mp h with h' | h'
      · cases h'
      · exact hv1 h'
    · exact hn2 h
    · rcases List.mem_cons.mp h with h' | h'
      · cases h'
      · exact hv2 h'

theorem parseTagToken_tagToStr (t : MessageTag) (ht : WfTag t) :
    parseTagToken (tagToStr t) = t := by
  obtain ⟨name, value⟩ := t
  obtain ⟨hn1, hn2, hn3, hv⟩ := ht
  cases value with
  | none =>
    unfold parseTagToken tagToStr
    rw [if_neg]
    intro hc
    exact hn3 (List.elem_iff.mp hc)
  | some v =>
    obtain ⟨hv1, hv2⟩ := hv v rfl
    unfold parseTagToken tagToStr
    rw [if_pos]
    · rw [takeWhile_append_not_mem '=' name _ hn3, takeWhile_head_eq,
          dropWhile_append_not_mem '=' name _ hn3, dropWhile_head_eq]
      simp
    · exact List.elem_iff.mpr (List.mem_append.mpr (Or.inr (List.mem_cons_self _ _)))

theorem joinSep_tags_not_mem (tags : List MessageTag)
    (h : ∀ t ∈ tags, WfTag t) :
    ' ' ∉ joinSep ';' (tags.map tagToStr) := by
  induction tags with
  | nil => simp [joinSep]
  | cons t ts ih =>
    cases ts with
    | nil =>
      show ' ' ∉ joinSep ';' [tagToStr t]
      exact (tagToStr_not_mem t (h t (List.mem_cons_self _ _))).1
    | cons t' ts' =>
      rw [List.map_cons, joinSep_cons_of_ne ';' _ _ (by simp)]
      intro hm
      rcases List.mem_append.mp hm with hmm | hmm
      · exact (tagToStr_not_mem t (h t (List.mem_cons_self _ _))).1 hmm
      · rcases List.mem_cons.mp hmm with h' | h'
        · cases h'
        · exact ih (fun u hu => h u (List.mem_cons_of_mem _ hu)) h'

theorem tags_reparse (tags : List MessageTag) (h : ∀ t ∈ tags, WfTag t) :
    tags ≠ [] →
    (splitChar ';' (joinSep ';' (tags.map tagToStr))).map parseTagToken = tags := by
  induction tags with
  | nil => intro hc; exact absurd rfl hc
  | cons t ts ih =>
    intro _
    cases ts with
    | nil =>
      show (splitChar ';' (joinSep ';' [tagToStr t])).map parseTagToken = [t]
      rw [show joinSep ';' [tagToStr t] = tagToStr t from rfl,
          splitChar_of_not_mem ';' _ (tagToStr_not_mem t (h t (List.mem_cons_self _ _))).2,
          List.map_singleton, parseTagToken_tagToStr t (h t (List.mem_cons_self _ _))]
    | cons t' ts' =>
      rw [List.map_cons, joinSep_cons_of_ne ';' _ _ (by simp),
          splitChar_append ';' _ _ (tagToStr_not_mem t (h t (List.mem_cons_self _ _))).2,
          List.map_cons, parseTagToken_tagToStr t (h t (List.mem_cons_self _ _)),
          ih (fun u hu => h u (List.mem_cons_of_mem _ hu)) (by simp)]

theorem consumeTags_render (tags : List MessageTag) (h : ∀ t ∈ tags, WfTag t)
    (htne : tags ≠ []) (r : Str) (hr : r = [] ∨ r.head? = some ' ') :
    consumeTags ('@' :: (joinSep ';' (tags.map tagToStr) ++ r)) = (tags, r) := by
  have hTsp : ' ' ∉ joinSep ';' (tags.map tagToStr) := joinSep_tags_not_mem tags h
  have htrim : trimLeft ('@' :: (joinSep ';' (tags.map tagToStr) ++ r)) =
      '@' :: (joinSep ';' (tags.map tagToStr) ++ r) := by
    apply trimLeft_eq_self
    intro c hc
    cases hc
    decide
  unfold consumeTags
  rw [htrim, if_pos (by simp)]
  rw [List.tail_cons, takeWhile_word _ r hTsp hr, tags_reparse tags h htne]
  have hdw : ('@' :: (joinSep ';' (tags.map tagToStr) ++ r)).dropWhile (· ≠ ' ') = r := by
    have := dropWhile_word ('@' :: joinSep ';' (tags.map tagToStr)) r
      (by intro hm; rcases List.mem_cons.mp hm with h' | h'
          · cases h'
          · exact hTsp h') hr
    simpa using this
  rw [hdw]

theorem consumeTags_no (l : Str) (h : (trimLeft l).head? ≠ some '@') :
    consumeTags l = ([], trimLeft l) := by
  unfold consumeTags
  rw [if_neg h]

theorem consumeSource_cons_space (l : Str) :
    consumeSource (' ' :: l) = consumeSource l := by
  unfold consumeSource
  rw [trimLeft_cons_space]

theorem consumeSource_render (s r : Str) (hs : ' ' ∉ s)
    (hr : r = [] ∨ r.head? = some ' ') :
    consumeSource (':' :: (s ++ r)) = (some s, r) := by
  have htrim : trimLeft (':' :: (s ++ r)) = ':' :: (s ++ r) := by
    apply trimLeft_eq_self
    intro c hc
    cases hc
    decide
  unfold consumeSource
  rw [htrim, if_pos (by simp)]
  rw [List.tail_cons, takeWhile_word _ r hs hr]
  have hdw : (':' :: (s ++ r)).dropWhile (· ≠ ' ') = r := by
    have := dropWhile_word (':' :: s) r
      (by intro hm; rcases List.mem_cons.mp hm with h' | h'
          · cases h'
          · exact hs h') hr
    simpa using this
  rw [hdw]

theorem consumeSource_no (l : Str) (htrim : trimLeft l = l)
    (h : l.head? ≠ some ':') : consumeSource l = (none, l) := by
  unfold consumeSource
  rw [htrim, if_neg h]

theorem head?_append_of_ne_nil (a b : Str) (h : a ≠ []) :
    (a ++ b).head? = a.head? := by
  cases a with
  | nil => exact absurd rfl h
  | cons x xs => rfl

theorem new_concat (x : Str) :
    Message.new (x ++ ['\r', '\n']) =
      some (
        let (tags, l₁) := consumeTags x
        let (source, l₂) := consumeSource l₁
        let (command, params) := parseCommandParams l₂
        { tags := tags, source := source, command := command, params := params }) := by
  unfold Message.new
  rw [stripLineEnding_concat]
  rfl

theorem trimLeft_cmd_render (C : Str) (ps : List Str) (hC : C ≠ [])
    (hChead : ∀ c, C.head? = some c → rustIsWhitespace c = false) :
    trimLeft (C ++ renderParams ps) = C ++ renderParams ps := by
  apply trimLeft_eq_self
  intro c hc
  rw [head?_append_of_ne_nil C _ hC] at hc
  exact hChead c hc

theorem consumeSource_cmd_render (C : Str) (ps : List Str) (hC : C ≠ [])
    (hChead : ∀ c, C.head? = some c → rustIsWhitespace c = false)
    (hcol : C.head? ≠ some ':') :
    consumeSource (C ++ renderParams ps) = (none, C ++ renderParams ps) := by
  apply consumeSource_no _ (trimLeft_cmd_render C ps hC hChead)
  rw [head?_append_of_ne_nil C _ hC]
  exact hcol

/-- Serialising a parser-produced (well-formed) message and parsing the line
again restores the message exactly. -/
theorem reparse_of_wf (m : Message) (hm : WfMsg m) :
    Message.new m.toLine = some m := by
  obtain ⟨tags, src, C, ps⟩ := m
  obtain ⟨htags, hsrc, hCsp, hCps, hChead, hat, hcol, hps⟩ := hm
  by_cases htn : tags = []
  · subst htn
    cases src with
    | none =>
      by_cases hC : C = []
      · subst hC
        have hps0 : ps = [] := hCps rfl
        subst hps0
        decide
      · have hbody : Message.toLine ⟨[], none, C, ps⟩ =
            (C ++ renderParams ps) ++ ['\r', '\n'] := by
          simp [Message.toLine, hC]
        rw [hbody, new_concat]
        have hct : consumeTags (C ++ renderParams ps) =
            ([], C ++ renderParams ps) := by
          rw [consumeTags_no _ ?_, trimLeft_cmd_render C ps hC hChead]
          rw [trimLeft_cmd_render C ps hC hChead,
              head?_append_of_ne_nil C _ hC]
          exact hat rfl rfl
        rw [hct]
        dsimp only
        rw [consumeSource_cmd_render C ps hC hChead (hcol rfl)]
        dsimp only
        rw [parseCommandParams_render C ps hC hCsp hChead hps]
    | some s =>
      have hssp : ' ' ∉ s := hsrc s rfl
      by_cases hC : C = []
      · subst hC
        have hps0 : ps = [] := hCps rfl
        subst hps0
        have hbody : Message.toLine ⟨[], some s, [], []⟩ =
            (':' :: s) ++ ['\r', '\n'] := by
          show (([] ++ (':' :: (s ++ [' ']))).dropLast) ++ ['\r', '\n'] = _
          rw [List.nil_append,
              show ':' :: (s ++ [' ']) = ((':' :: s) ++ [' ']) by simp,
              List.dropLast_concat]
        rw [hbody, new_concat]
        have hct : consumeTags (':' :: s) = ([], ':' :: s) := by
          have htrim : trimLeft (':' :: s) = ':' :: s := by
            apply trimLeft_eq_self
            intro c hc
            cases hc
            decide
          rw [consumeTags_no _ ?_, htrim]
          rw [htrim]
          simp
        rw [hct]
        dsimp only
        have hcs : consumeSource (':' :: s) = (some s, []) := by
          have := consumeSource_render s [] hssp (Or.inl rfl)
          simpa using this
        rw [hcs]
        rfl
      · have hbody : Message.toLine ⟨[], some s, C, ps⟩ =
            (':' :: (s ++ ' ' :: (C ++ renderParams ps))) ++ ['\r', '\n'] := by
          simp [Message.toLine, hC]
        rw [hbody, new_concat]
        have hct : consumeTags (':' :: (s ++ ' ' :: (C ++ renderParams ps))) =
            ([], ':' :: (s ++ ' ' :: (C ++ renderParams ps))) := by
          have htrim : trimLeft (':' :: (s ++ ' ' :: (C ++ renderParams ps))) =
              ':' :: (s ++ ' ' :: (C ++ renderParams ps)) := by
            apply trimLeft_eq_self
            intro c hc
            cases hc
            decide
          rw [consumeTags_no _ ?_, htrim]
          rw [htrim]
          simp
        rw [hct]
        dsimp only
        rw [consumeSource_render s (' ' :: (C ++ renderParams ps)) hssp
          (Or.inr rfl)]
        dsimp only
        rw [parseCommandParams_space,
            parseCommandParams_render C ps hC hCsp hChead hps]
  · cases src with
    | none =>
      by_cases hC : C = []
      · subst hC
        have hps0 : ps = [] := hCps rfl
        subst hps0
        have hbody : Message.toLine ⟨tags, none, [], []⟩ =
            ('@' :: joinSep ';' (tags.map tagToStr)) ++ ['\r', '\n'] := by
          show (((if tags = [] then ([] : Str)
                  else '@' :: joinSep ';' (tags.map tagToStr) ++ [' ']) ++ []).dropLast)
              ++ ['\r', '\n'] = _
          rw [if_neg htn, List.append_nil,
              show '@' :: joinSep ';' (tags.map tagToStr) ++ [' '] =
                (('@' :: joinSep ';' (tags.map tagToStr)) ++ [' ']) by simp,
              List.dropLast_concat]
        rw [hbody, new_concat]
        have hct : consumeTags ('@' :: joinSep ';' (tags.map tagToStr)) =
            (tags, []) := by
          have := consumeTags_render tags htags htn [] (Or.inl rfl)
          simpa using this
        rw [hct]
        rfl
      · have hbody : Message.toLine ⟨tags, none, C, ps⟩ =
            ('@' :: (joinSep ';' (tags.map tagToStr) ++
              ' ' :: (C ++ renderParams ps))) ++ ['\r', '\n'] := by
          simp [Message.toLine, hC, htn]
        rw [hbody, new_concat]
        rw [consumeTags_render tags htags htn (' ' :: (C ++ renderParams ps))
          (Or.inr rfl)]
        dsimp only
        rw [consumeSource_cons_space,
            consumeSource_cmd_render C ps hC hChead (hcol rfl)]
        dsimp only
        rw [parseCommandParams_render C ps hC hCsp hChead hps]
    | some s =>
      have hssp : ' ' ∉ s := hsrc s rfl
      by_cases hC : C = []
      · subst hC
        have hps0 : ps = [] := hCps rfl
        subst hps0
        have hbody : Message.toLine ⟨tags, some s, [], []⟩ =
            ('@' :: (joinSep ';' (tags.map tagToStr) ++ ' ' :: ':' :: s))
              ++ ['\r', '\n'] := by
          show (((if tags = [] then ([] : Str)
                  else '@' :: joinSep ';' (tags.map tagToStr) ++ [' ']) ++
                 (':' :: (s ++ [' ']))).dropLast) ++ ['\r', '\n'] = _
          rw [if_neg htn,
              show ('@' :: joinSep ';' (tags.map tagToStr) ++ [' ']) ++
                  (':' :: (s ++ [' '])) =
                (('@' :: (joinSep ';' (tags.map tagToStr) ++ ' ' :: ':' :: s))
                  ++ [' ']) by simp,
              List.dropLast_concat]
        rw [hbody, new_concat]
        rw [consumeTags_render tags htags htn (' ' :: ':' :: s) (Or.inr rfl)]
        dsimp only
        rw [consumeSource_cons_space]
        have hcs : consumeSource (':' :: s) = (some s, []) := by
          have := consumeSource_render s [] hssp (Or.inl rfl)
          simpa using this
        rw [hcs]
        rfl
      · have hbody : Message.toLine ⟨tags, some s, C, ps⟩ =
            ('@' :: (joinSep ';' (tags.map tagToStr) ++
              ' ' :: ':' :: (s ++ ' ' :: (C ++ renderParams ps))))
              ++ ['\r', '\n'] := by
          simp [Message.toLine, hC, htn]
        rw [hbody, new_concat]
        rw [consumeTags_render tags htags htn
          (' ' :: ':' :: (s ++ ' ' :: (C ++ renderParams ps))) (Or.inr rfl)]
        dsimp only
        rw [consumeSource_cons_space,
            consumeSource_render s (' ' :: (C ++ renderParams ps)) hssp
              (Or.inr rfl)]
        dsimp only
        rw [parseCommandParams_space,
            parseCommandParams_render C ps hC hCsp hChead hps]

theorem takeWhile_not_mem_self (c : Char) (l : Str) :
    c ∉ l.takeWhile (· ≠ c) := by
  induction l with
  | nil => simp
  | cons a r ih =>
    by_cases h : a = c
    · subst h
      rw [takeWhile_head_eq]
      simp
    · rw [List.takeWhile_cons, if_pos (by simp [h])]
      intro hm
      rcases List.mem_cons.mp hm with h' | h'
      · exact h h'.symm
      · exact ih h'

theorem mem_splitChar_subset (c : Char) (l : Str) :
    ∀ p ∈ splitChar c l, ∀ a ∈ p, a ∈ l := by
  induction l with
  | nil =>
    intro p hp a ha
    simp [splitChar] at hp
    subst hp
    cases ha
  | cons x r ih =>
    intro p hp a ha
    by_cases h : x = c
    · subst h
      rw [splitChar_cons_eq] at hp
      rcases List.mem_cons.mp hp with rfl | hp'
      · cases ha
      · exact List.mem_cons_of_mem _ (ih p hp' a ha)
    · obtain ⟨q, qs, hqq⟩ := splitChar_shape c r
      rw [splitChar_cons_ne c x r h, hqq] at hp
      simp only [List.headD_cons, List.tail_cons] at hp
      rcases List.mem_cons.mp hp with rfl | hp'
      · rcases List.mem_cons.mp ha with rfl | ha'
        · exact List.mem_cons_self _ _
        · exact List.mem_cons_of_mem _ (ih q (hqq ▸ List.mem_cons_self _ _) a ha')
      · exact List.mem_cons_of_mem _ (ih p (hqq ▸ List.mem_cons_of_mem _ hp') a ha)

theorem wfTag_parseTagToken (tok : Str) (hsp : ' ' ∉ tok) (hsc : ';' ∉ tok) :
    WfTag (parseTagToken tok) := by
  unfold parseTagToken
  by_cases h : tok.contains '=' = true
  · rw [if_pos h]
    refine ⟨?_, ?_, ?_, ?_⟩
    · exact fun hm => hsp ((List.takeWhile_subset _) hm)
    · exact fun hm => hsc ((List.takeWhile_subset _) hm)
    · exact takeWhile_not_mem_self '=' tok
    · intro v hv
      cases hv
      constructor
      · exact fun hm => hsp ((List.dropWhile_subset _) (List.tail_subset _ hm))
      · exact fun hm => hsc ((List.dropWhile_subset _) (List.tail_subset _ hm))
  · rw [if_neg h]
    refine ⟨hsp, hsc, ?_, ?_⟩
    · exact fun hm => h (List.elem_iff.mpr hm)
    · intro v hv
      cases hv

theorem wfParams_parseParams (ws : List Str) (h : ∀ w ∈ ws, ' ' ∉ w) :
    WfParams (parseParams ws) := by
  induction ws with
  | nil => trivial
  | cons w ws ih =>
    by_cases h1 : w.head? = some ':'
    · simp only [parseParams, if_pos h1]
      cases ws.foldl (fun s v => s ++ ' ' :: v) w.tail
      · trivial
      · trivial
    · by_cases h2 : w = []
      · simp only [parseParams, if_neg h1, if_pos h2]
        exact ih (fun v hv => h v (List.mem_cons_of_mem _ hv))
      · simp only [parseParams, if_neg h1, if_neg h2]
        exact wfParams_cons w _ ⟨h2, h w (List.mem_cons_self _ _), h1⟩
          (ih (fun v hv => h v (List.mem_cons_of_mem _ hv)))

theorem parseCommandParams_spec (l : Str) :
    ' ' ∉ (parseCommandParams l).1 ∧
    ((parseCommandParams l).1 = [] → (parseCommandParams l).2 = []) ∧
    (parseCommandParams l).1.head? = (trimLeft l).head? ∧
    WfParams (parseCommandParams l).2 := by
  unfold parseCommandParams
  cases hx : trimLeft l with
  | nil => exact ⟨by decide, fun _ => rfl, by decide, trivial⟩
  | cons a r =>
    have ha : a ≠ ' ' := by
      intro h
      have := head_trimLeft_not_ws l a (by rw [hx]; rfl)
      rw [h] at this
      exact absurd this (by decide)
    obtain ⟨q, qs, hqq⟩ := splitChar_shape ' ' r
    rw [splitChar_cons_ne ' ' a r ha, hqq]
    simp only [List.headD_cons, List.tail_cons]
    have hwords : ∀ w ∈ splitChar ' ' (a :: r), ' ' ∉ w :=
      splitChar_mem_not_mem ' ' (a :: r)
    refine ⟨?_, ?_, by simp, ?_⟩
    · apply hwords
      rw [splitChar_cons_ne ' ' a r ha, hqq]
      simp only [List.headD_cons, List.tail_cons]
      exact List.mem_cons_self _ _
    · intro hcontra
      cases hcontra
    · apply wfParams_parseParams
      intro w hw
      apply hwords
      rw [splitChar_cons_ne ' ' a r ha, hqq]
      simp only [List.headD_cons, List.tail_cons]
      exact List.mem_cons_of_mem _ hw

theorem dropWhile_ne_shape (c : Char) (x : Str) :
    x.dropWhile (· ≠ c) = [] ∨ (x.dropWhile (· ≠ c)).head? = some c := by
  induction x with
  | nil => left; rfl
  | cons a r ih =>
    by_cases h : a = c
    · subst h
      right
      rw [dropWhile_head_eq]
      rfl
    · rw [List.dropWhile_cons, if_pos (by simp [h])]
      exact ih

theorem consumeTags_fst_wf (l₀ : Str) : ∀ t ∈ (consumeTags l₀).1, WfTag t := by
  by_cases hat0 : (trimLeft l₀).head? = some '@'
  · unfold consumeTags
    rw [if_pos hat0]
    show ∀ t ∈ (splitChar ';' ((trimLeft l₀).tail.takeWhile (· ≠ ' '))).map parseTagToken,
      WfTag t
    intro t ht
    rw [List.mem_map] at ht
    obtain ⟨tok, htok, rfl⟩ := ht
    apply wfTag_parseTagToken
    · intro hm
      exact takeWhile_not_mem_self ' ' (trimLeft l₀).tail
        (mem_splitChar_subset ';' _ tok htok ' ' hm)
    · exact splitChar_mem_not_mem ';' _ tok htok
  · unfold consumeTags
    rw [if_neg hat0]
    intro t ht
    cases ht

theorem consumeTags_shape (l₀ : Str) :
    ((consumeTags l₀).1 = [] ∧ (consumeTags l₀).2 = trimLeft l₀ ∧
      (trimLeft l₀).head? ≠ some '@') ∨
    ((consumeTags l₀).1 ≠ [] ∧
      ((consumeTags l₀).2 = [] ∨ ((consumeTags l₀).2).head? = some ' ')) := by
  by_cases hat0 : (trimLeft l₀).head? = some '@'
  · right
    unfold consumeTags
    rw [if_pos hat0]
    constructor
    · show (splitChar ';' ((trimLeft l₀).tail.takeWhile (· ≠ ' '))).map parseTagToken ≠ []
      obtain ⟨q, qs, hqq⟩ := splitChar_shape ';' ((trimLeft l₀).tail.takeWhile (· ≠ ' '))
      rw [hqq]
      simp
    · show (trimLeft l₀).dropWhile (· ≠ ' ') = [] ∨
        ((trimLeft l₀).dropWhile (· ≠ ' ')).head? = some ' '
      exact dropWhile_ne_shape ' ' (trimLeft l₀)
  · left
    unfold consumeTags
    rw [if_neg hat0]
    exact ⟨rfl, rfl, hat0⟩

theorem consumeSource_spec (x : Str) :
    (∀ s, (consumeSource x).1 = some s → ' ' ∉ s) ∧
    (((consumeSource x).1 = none ∧ (consumeSource x).2 = trimLeft x ∧
        (trimLeft x).head? ≠ some ':') ∨
     ((∃ s, (consumeSource x).1 = some s) ∧
        ((consumeSource x).2 = [] ∨ ((consumeSource x).2).head? = some ' '))) := by
  by_cases hc0 : (trimLeft x).head? = some ':'
  · unfold consumeSource
    rw [if_pos hc0]
    constructor
    · intro s hsome
      have : (trimLeft x).tail.takeWhile (· ≠ ' ') = s := by
        simpa using hsome
      intro hm
      rw [← this] at hm
      exact takeWhile_not_mem_self ' ' (trimLeft x).tail hm
    · right
      exact ⟨⟨_, rfl⟩, dropWhile_ne_shape ' ' (trimLeft x)⟩
  · unfold consumeSource
    rw [if_neg hc0]
    exact ⟨fun s hsome => Option.noConfusion hsome, Or.inl ⟨rfl, rfl, hc0⟩⟩

/-- Every parser output is well-formed. -/
theorem wf_of_parse (l : Str) (m : Message) (h : Message.new l = some m) :
    WfMsg m := by
  unfold Message.new at h
  cases hs : stripLineEnding l with
  | none => rw [hs] at h; cases h
  | some l₀ =>
    rw [hs, Option.map_some'] at h
    injection h with h
    subst h
    show WfMsg ⟨(consumeTags l₀).1,
      (consumeSource (consumeTags l₀).2).1,
      (parseCommandParams (consumeSource (consumeTags l₀).2).2).1,
      (parseCommandParams (consumeSource (consumeTags l₀).2).2).2⟩
    obtain ⟨hcsp, hcps, hchead, hwfps⟩ :=
      parseCommandParams_spec (consumeSource (consumeTags l₀).2).2
    obtain ⟨hsrcsp, hsrcshape⟩ := consumeSource_spec (consumeTags l₀).2
    refine ⟨consumeTags_fst_wf l₀, hsrcsp, hcsp, hcps, ?_, ?_, ?_, hwfps⟩
    · intro c hc
      rw [hchead] at hc
      exact head_trimLeft_not_ws _ c hc
    · intro htagsnil hsrcnone hcmdat
      dsimp only at htagsnil hsrcnone hcmdat
      rcases consumeTags_shape l₀ with ⟨_, hrest₁, hat0⟩ | ⟨htne, _⟩
      · rcases hsrcshape with ⟨_, hrest₂, _⟩ | ⟨⟨s, hsome⟩, _⟩
        · rw [hchead, hrest₂, hrest₁, trimLeft_idem, trimLeft_idem] at hcmdat
          exact hat0 hcmdat
        · rw [hsrcnone] at hsome
          cases hsome
      · exact htne htagsnil
    · intro hsrcnone hcmdcol
      dsimp only at hsrcnone hcmdcol
      rcases hsrcshape with ⟨_, hrest₂, hc0⟩ | ⟨⟨s, hsome⟩, _⟩
      · rw [hchead, hrest₂, trimLeft_idem] at hcmdcol
        exact hc0 hcmdcol
      · rw [hsrcnone] at hsome
        cases hsome

/-- C3: parsing any line, serialising the parsed message, and parsing again
yields the same message as the first parse. -/
theorem c3_parse_roundtrip (l : Str) (m : Message)
    (h : Message.new l = some m) : Message.new m.toLine = some m :=
  reparse_of_wf m (wf_of_parse l m h)

/-- C3 witness: the round trip evaluated on a line with tags, source,
collapsing whitespace and a trailing parameter. -/
theorem c3_parse_roundtrip_witness :
    Message.new
      ((Option.getD (Message.new (str "@a=1;b :src  cmd  p1   :tail  x\r\n"))
        ⟨[], none, [], []⟩).toLine) =
      Message.new (str "@a=1;b :src  cmd  p1   :tail  x\r\n") := by
  have hm : Message.new (str "@a=1;b :src  cmd  p1   :tail  x\r\n") =
      some ⟨[⟨str "a", some (str "1")⟩, ⟨str "b", none⟩], some (str "src"),
            str "cmd", [str "p1", str "tail  x"]⟩ := by decide
  rw [hm]
  exact c3_parse_roundtrip _ _ hm
